import Mathlib

/-!
Verification development for the filesystem traversal engine of
Archive-Tar-Builder (src/b_find.c).

Shallow embedding conventions:
- Paths and names are lists of characters (Str).  The C code treats paths
  as byte strings; for the properties below the list-of-characters view is
  equivalent.
- The filesystem visible to the traversal is a tree of FsNode values.  Each
  node carries the leaf name returned by readdir, the metadata mode lstat
  would report (lmode), the mode stat would report after following symbolic
  links (fmode), and the child entries an opendir plus readdir loop would
  yield, in iterator order.
- OS calls that can fail are modelled by oracles: clean (b_path_clean),
  rootStatFail (the initial b_stat), openFail (opendir, keyed by directory
  path, yielding the errno on failure), readFail (any per-entry failure
  inside b_dir_read, keyed by the entry path).
- Collaborators that are not part of src (b_stack, b_string, b_path,
  b_error) are modelled from the spec: the stack is a LIFO whose destroy
  walks the remaining elements invoking the registered destructor
  (spec section 4.4), b_string_dup copies, b_string_append_str
  concatenates, b_error_set records an error and b_error_fatal reports
  fatality (spec section 6.2).
- Resource and observable actions are recorded as an Event trace: visitor
  invocations, recorded warnings, frame pushes and destroys, entry record
  allocation and release, stack creation and release, release of the two
  canonicalized strings.
-/

namespace ATB

/-- Paths and names as lists of characters. -/
abbrev Str := List Char

/-- File type mask, from sys/stat.h. -/
def S_IFMT : Nat := 0xf000

/-- Directory file type, from sys/stat.h. -/
def S_IFDIR : Nat := 0x4000

/-- Regular file type, from sys/stat.h. -/
def S_IFREG : Nat := 0x8000

/-- Permission denied errno, from errno.h. -/
def EACCES : Nat := 13

/-- Modelled from the spec: the header b_find.h is not under src; the spec
(section 6.4) says flags is a bitset with exactly one recognized bit,
FOLLOW_SYMLINKS.  Its concrete value is immaterial to every property
proved here; we fix bit 0. -/
def B_FIND_FOLLOW_SYMLINKS : Nat := 1

/-- True when the FOLLOW_SYMLINKS bit is set in flags, mirroring the test
(flags and B_FIND_FOLLOW_SYMLINKS) in b_stat (b_find.c line 16). -/
def followBit (flags : Nat) : Bool := flags &&& B_FIND_FOLLOW_SYMLINKS != 0

/-- Embedding of b_stat (b_find.c lines 15-19): pick stat when the
FOLLOW_SYMLINKS bit is set, lstat otherwise, and apply it to the path.
The two system calls are abstract metadata oracles returning some mode on
success and none on failure. -/
def b_stat (statfn lstatfn : Str → Option Nat) (path : Str) (flags : Nat) : Option Nat :=
  if followBit flags then statfn path else lstatfn path

/-- A filesystem node: readdir leaf name, lstat mode, stat (follow) mode,
and child entries in iterator order. -/
inductive FsNode where
  | node (name : Str) (lmode fmode : Nat) (children : List FsNode)
deriving Repr

/-- Leaf name of a node. -/
def FsNode.name : FsNode → Str
  | .node nm _ _ _ => nm

/-- Children of a node. -/
def FsNode.children : FsNode → List FsNode
  | .node _ _ _ cs => cs

/-- Metadata mode b_stat reports for a node under the given policy. -/
def nodeMode (follow : Bool) : FsNode → Nat
  | .node _ lmd fmd _ => if follow then fmd else lmd

/-- Size of a forest, used as termination measure. -/
def szL : List FsNode → Nat
  | [] => 1
  | .node _ _ _ cs :: ns => 1 + szL cs + szL ns

/-- The leaf name "." skipped by the driver (b_find.c line 263). -/
def dot : Str := ['.']

/-- The leaf name ".." skipped by the driver (b_find.c line 263). -/
def dotdot : Str := ['.', '.']

/-- Path composition done by b_dir_read (b_find.c lines 104-115): append a
separator then the leaf name, except that a parent equal to the filesystem
root "/" gets no extra separator. -/
def joinPath (parent nm : Str) : Str :=
  if parent = ['/'] then parent ++ nm else parent ++ '/' :: nm

/-- Embedding of subst_member_name (b_find.c lines 156-180).  The two
booleans are allocation oracles for b_string_dup and b_string_append_str.
When path and member name agree no rewrite is produced; an allocation
failure also yields no rewrite; otherwise the result is the member name
followed by the suffix of current past the first length-of-path
characters. -/
def subst_member_name (dupOk appendOk : Bool) (path member_name current : Str) : Option Str :=
  if path = member_name then none
  else if !dupOk then none
  else if !appendOk then none
  else some (member_name ++ current.drop path.length)

/-- The logical path the driver hands to the visitor for a loop entry
(b_find.c lines 271-273): the substituted member name when available,
the on-disk path otherwise.  Allocation is assumed to succeed here; the
allocation-failure fallback is proved separately about
subst_member_name. -/
def logicalStr (cp cm cur : Str) : Str :=
  (subst_member_name true true cp cm cur).getD cur

/-- The entry record produced by one successful b_dir_read (b_find.c
lines 70-74): leaf name, composed path, stat mode. -/
structure DirItem where
  name : Str
  path : Str
  mode : Nat
deriving Repr, DecidableEq

/-- Allocation and system call oracles for one b_dir_read call, one per
failure exit of b_find.c lines 76-139. -/
structure ReadOracles where
  readdirOk : Bool
  mallocOk : Bool
  mallocStOk : Bool
  dupOk : Bool
  newOk : Bool
  appendSepOk : Bool
  appendNameOk : Bool
  statOk : Bool
deriving Repr, DecidableEq

/-- The all-success oracle. -/
def allReadOk : ReadOracles := ⟨true, true, true, true, true, true, true, true⟩

/-- Embedding of b_dir_read (b_find.c lines 76-139) on a frame whose open
directory iterator has the given remaining entries.  Every failure exit
(readdir NULL, malloc of the item, malloc of the stat buffer, duplication
of the directory path, creation of the name string, appending the
separator, appending the name, the stat itself) releases the partial
allocations and returns the same result as iterator exhaustion: none.
The separator append only happens when the directory path is not the
filesystem root, matching lines 104-111. -/
def b_dir_read (o : ReadOracles) (follow : Bool) (dirPath : Str) :
    List FsNode → Option (DirItem × List FsNode)
  | [] => none
  | .node nm lmd fmd _ :: es =>
    if !o.readdirOk then none
    else if !o.mallocOk then none
    else if !o.mallocStOk then none
    else if !o.dupOk then none
    else if !o.newOk then none
    else if dirPath ≠ ['/'] ∧ !o.appendSepOk then none
    else if !o.appendNameOk then none
    else if !o.statOk then none
    else some (⟨nm, joinPath dirPath nm, if follow then fmd else lmd⟩, es)

/-- Observable and resource events of one b_find execution. -/
inductive Event where
  | visit (disk logical : Str) (mode : Nat)
  | warn (errno : Nat) (msg : Str) (path : Str)
  | framePush (id : Nat) (path : Str)
  | frameDestroy (id : Nat)
  | itemAlloc (path : Str)
  | itemFree (path : Str)
  | stackNew
  | stackFree
  | freeCleanPath
  | freeCleanMember
deriving Repr, DecidableEq, BEq

/-- A directory frame on the stack:  identity (allocation order), the
directory path owned by the frame, and the entries its iterator has not
yet yielded. -/
structure Frame where
  id : Nat
  path : Str
  rest : List FsNode
deriving Repr

/-- The parameters of one b_find call that stay fixed during the loop. -/
structure Ctx where
  cb : Str → Str → Nat → Int
  errPresent : Bool
  fatal : Bool
  follow : Bool
  openFail : Str → Option Nat
  readFail : Str → Bool
  cleanPath : Str
  cleanMember : Str

/-- The message recorded with directory-open warnings
(b_find.c lines 234 and 292). -/
def uodMsg : Str := ("Unable to open directory").data

/-- The b_error_set call guarded by the accumulator being present
(b_find.c lines 233-235 and 291-293). -/
def warnEvts (errPresent : Bool) (eno : Nat) (p : Str) : List Event :=
  if errPresent then [Event.warn eno uodMsg p] else []

/-- The mode of the current entry as filled in by the b_stat call inside
b_dir_read under the follow policy of the call. -/
def emode (C : Ctx) (lmd fmd : Nat) : Nat := if C.follow then fmd else lmd

/-- The logical path for the current entry, as picked on b_find.c
line 273. -/
def elog (C : Ctx) (p : Str) : Str := logicalStr C.cleanPath C.cleanMember p

/-- The visitor return value for the current entry (b_find.c line 273). -/
def eres (C : Ctx) (fp nm : Str) (lmd fmd : Nat) : Int :=
  C.cb (joinPath fp nm) (elog C (joinPath fp nm)) (emode C lmd fmd)

/-- Events of the abort path taken from inside the main loop
(error_item and error_stack_push, b_find.c lines 314-343): the current
entry record was already released by the caller; then b_dir_destroy(dir)
destroys the root frame (id 0), b_stack_destroy destroys the stack and
every frame still on it, and the two canonicalized strings are released.
Note the root frame is still an element of the stack here, so it is
destroyed again by the stack destructor. -/
def abortTail (stack : List Frame) : List Event :=
  Event.frameDestroy 0 ::
    (stack.map (fun fr => Event.frameDestroy fr.id) ++
      [Event.stackFree, Event.freeCleanMember, Event.freeCleanPath])

/-- The main loop of b_find (b_find.c lines 244-318), with the clean and
error epilogues (lines 320-343).  One equation per control path:
- empty stack: the loop exits, the stack and both strings are released
  (cleanup, lines 320-325), result 0;
- top frame exhausted, or any per-entry read failure (readFail keyed by
  the path of the entry the iterator would yield): b_dir_read returned
  NULL, the frame is popped and destroyed (lines 253-261);
- leaf name "." or "..": the record is released and skipped (line 263);
- visitor returned 0: record released, no descent (line 277);
- visitor returned a negative: skip when an accumulator is present and
  not fatal, otherwise release the record and abort (lines 279-284);
- directory entry accepted: open it; on failure record a warning when an
  accumulator is present, tolerate EACCES by skipping, abort otherwise
  (lines 287-300); on success push the new frame (line 302);
- anything else: release the record and continue.
b_stack_push is assumed to succeed; the allocation-failure exit of
line 302 is not modelled (no claim depends on it). -/
def runLoop (C : Ctx) : List Frame → Nat → Int × List Event
  | [], _ => (0, [Event.stackFree, Event.freeCleanPath, Event.freeCleanMember])
  | ⟨i, _, []⟩ :: rest, n =>
      let r := runLoop C rest n
      (r.1, Event.frameDestroy i :: r.2)
  | ⟨i, fp, .node nm lmd fmd cs :: es⟩ :: rest, n =>
      if C.readFail (joinPath fp nm) then
        let r := runLoop C rest n
        (r.1, Event.frameDestroy i :: r.2)
      else if nm = dot ∨ nm = dotdot then
        let r := runLoop C (⟨i, fp, es⟩ :: rest) n
        (r.1, Event.itemAlloc (joinPath fp nm) :: Event.itemFree (joinPath fp nm) :: r.2)
      else
        if eres C fp nm lmd fmd = 0 then
          let r := runLoop C (⟨i, fp, es⟩ :: rest) n
          (r.1, Event.itemAlloc (joinPath fp nm) ::
            Event.visit (joinPath fp nm) (elog C (joinPath fp nm)) (emode C lmd fmd) ::
            Event.itemFree (joinPath fp nm) :: r.2)
        else if eres C fp nm lmd fmd < 0 then
          if C.errPresent && !C.fatal then
            let r := runLoop C (⟨i, fp, es⟩ :: rest) n
            (r.1, Event.itemAlloc (joinPath fp nm) ::
              Event.visit (joinPath fp nm) (elog C (joinPath fp nm)) (emode C lmd fmd) ::
              Event.itemFree (joinPath fp nm) :: r.2)
          else
            (-1, Event.itemAlloc (joinPath fp nm) ::
              Event.visit (joinPath fp nm) (elog C (joinPath fp nm)) (emode C lmd fmd) ::
              Event.itemFree (joinPath fp nm) :: abortTail (⟨i, fp, es⟩ :: rest))
        else if emode C lmd fmd &&& S_IFMT = S_IFDIR then
          match C.openFail (joinPath fp nm) with
          | some eno =>
            if eno = EACCES then
              let r := runLoop C (⟨i, fp, es⟩ :: rest) n
              (r.1, Event.itemAlloc (joinPath fp nm) ::
                Event.visit (joinPath fp nm) (elog C (joinPath fp nm)) (emode C lmd fmd) ::
                (warnEvts C.errPresent eno (joinPath fp nm) ++
                  Event.itemFree (joinPath fp nm) :: r.2))
            else
              (-1, Event.itemAlloc (joinPath fp nm) ::
                Event.visit (joinPath fp nm) (elog C (joinPath fp nm)) (emode C lmd fmd) ::
                (warnEvts C.errPresent eno (joinPath fp nm) ++
                  Event.itemFree (joinPath fp nm) ::
                    abortTail (⟨i, fp, es⟩ :: rest)))
          | none =>
            let r := runLoop C (⟨n, joinPath fp nm, cs⟩ :: ⟨i, fp, es⟩ :: rest) (n + 1)
            (r.1, Event.itemAlloc (joinPath fp nm) ::
              Event.visit (joinPath fp nm) (elog C (joinPath fp nm)) (emode C lmd fmd) ::
              Event.framePush n (joinPath fp nm) ::
              Event.itemFree (joinPath fp nm) :: r.2)
        else
          let r := runLoop C (⟨i, fp, es⟩ :: rest) n
          (r.1, Event.itemAlloc (joinPath fp nm) ::
            Event.visit (joinPath fp nm) (elog C (joinPath fp nm)) (emode C lmd fmd) ::
            Event.itemFree (joinPath fp nm) :: r.2)
  termination_by s _ => (s.map (fun fr => szL fr.rest)).sum
  decreasing_by
  all_goals first
    | (simp_all [szL]; omega)
    | simp_all [szL]

/-- Embedding of b_find (b_find.c lines 186-344) after the two successful
b_path_clean calls: create the stack, stat the root (rootStatFail oracle),
invoke the visitor on the root with the canonicalized path and member
name, apply the guard clauses of lines 220-230, open the root directory
and enter the loop.  The branch for a root that is not a directory
(line 228-230) returns 0 directly, releasing nothing, exactly as the C
code does. -/
def b_find_core (cb : Str → Str → Nat → Int) (errPresent fatal : Bool)
    (cp cm : Str) (root : FsNode) (rootStatFail : Bool)
    (openFail : Str → Option Nat) (readFail : Str → Bool) (flags : Nat) :
    Int × List Event :=
  let follow := followBit flags
  let C : Ctx := ⟨cb, errPresent, fatal, follow, openFail, readFail, cp, cm⟩
  if rootStatFail then
    (-1, [Event.stackNew, Event.stackFree, Event.freeCleanMember, Event.freeCleanPath])
  else
    let md := nodeMode follow root
    let res := cb cp cm md
    if res = 0 then
      (0, [Event.stackNew, Event.visit cp cm md,
        Event.stackFree, Event.freeCleanPath, Event.freeCleanMember])
    else if res < 0 then
      (-1, [Event.stackNew, Event.visit cp cm md,
        Event.stackFree, Event.freeCleanMember, Event.freeCleanPath])
    else if ¬(md &&& S_IFMT = S_IFDIR) then
      (0, [Event.stackNew, Event.visit cp cm md])
    else
      match openFail cp with
      | some eno =>
        (-1, [Event.stackNew, Event.visit cp cm md] ++ warnEvts errPresent eno cp ++
          [Event.stackFree, Event.freeCleanMember, Event.freeCleanPath])
      | none =>
        let r := runLoop C [⟨0, cp, root.children⟩] 1
        (r.1, Event.stackNew :: Event.visit cp cm md :: Event.framePush 0 cp :: r.2)

/-- Embedding of b_find including the two b_path_clean calls (b_find.c
lines 197-203); when cleaning the member name fails, the cleaned path is
released before returning (error_path_clean_member_name). -/
def b_find_model (cb : Str → Str → Nat → Int) (errPresent fatal : Bool)
    (clean : Str → Option Str) (path member_name : Str) (root : FsNode)
    (rootStatFail : Bool) (openFail : Str → Option Nat) (readFail : Str → Bool)
    (flags : Nat) : Int × List Event :=
  match clean path with
  | none => (-1, [])
  | some cp =>
    match clean member_name with
    | none => (-1, [Event.freeCleanPath])
    | some cm =>
      b_find_core cb errPresent fatal cp cm root rootStatFail openFail readFail flags

/-- Projection of a visit event to its arguments. -/
def vproj : Event → Option (Str × Str × Nat)
  | Event.visit d l md => some (d, l, md)
  | _ => none

/-- The visitor invocations recorded in a trace, in order, as
(disk path, logical path, mode) triples. -/
def visitTriples (evts : List Event) : List (Str × Str × Nat) :=
  evts.filterMap vproj

/-- The disk paths of the visitor invocations recorded in a trace. -/
def visitPaths (evts : List Event) : List Str :=
  (visitTriples evts).map (fun t => t.1)

/-- Whether an event is externally observable through the visitor or the
error accumulator. -/
def isObs : Event → Bool
  | Event.visit _ _ _ => true
  | Event.warn _ _ _ => true
  | _ => false

/-- The externally observable (visitor and accumulator) part of a trace. -/
def obs (evts : List Event) : List Event := evts.filter isObs

/-- Specification of the observable behaviour of the loop on one forest of
entries below a parent directory, written as direct recursion over the
tree: skip dot entries, visit every other entry, and when the visitor
accepts a directory either descend into its children (open succeeded) or
record the warning (open failed); the case of an open failure aborting
the walk is excluded by the hypotheses of the theorems that use this
function. -/
def specList (C : Ctx) : Str → List FsNode → List Event
  | _, [] => []
  | parent, .node nm lmd fmd cs :: ns =>
    (if nm = dot ∨ nm = dotdot then []
     else
       Event.visit (joinPath parent nm) (elog C (joinPath parent nm)) (emode C lmd fmd) ::
         (if 0 < eres C parent nm lmd fmd ∧ emode C lmd fmd &&& S_IFMT = S_IFDIR then
            match C.openFail (joinPath parent nm) with
            | none => specList C (joinPath parent nm) cs
            | some eno => warnEvts C.errPresent eno (joinPath parent nm)
          else []))
    ++ specList C parent ns

/-- The concatenated specifications of the frames of a stack, top first. -/
def specFrames (C : Ctx) : List Frame → List Event
  | [] => []
  | f :: rest => specList C f.path f.rest ++ specFrames C rest

/-- Plain pre-order enumeration of the paths of a forest below a parent
directory: a directory entry is listed before its children, children in
iterator order, siblings in iterator order, dot entries excluded. -/
def preOrderList (follow : Bool) : Str → List FsNode → List Str
  | _, [] => []
  | parent, .node nm lmd fmd cs :: ns =>
    (if nm = dot ∨ nm = dotdot then []
     else
       joinPath parent nm ::
         (if (if follow then fmd else lmd) &&& S_IFMT = S_IFDIR then
            preOrderList follow (joinPath parent nm) cs
          else []))
    ++ preOrderList follow parent ns

/-- Well-formedness of a forest as a real readdir would produce it: every
leaf name is nonempty and contains no path separator. -/
def goodL : List FsNode → Bool
  | [] => true
  | .node nm _ _ cs :: ns => (decide (nm ≠ [] ∧ ('/' : Char) ∉ nm)) && goodL cs && goodL ns

/-- Witness tree for the positive traversal theorems: a directory with a
regular file and a subdirectory holding one file. -/
def wTree : FsNode :=
  FsNode.node ['t'] 0x41ed 0x41ed
    [FsNode.node ['a'] 0x81a4 0x81a4 [],
     FsNode.node ['b'] 0x41ed 0x41ed [FsNode.node ['c'] 0x81a4 0x81a4 []]]

/-- Identity canonicalization oracle for witnesses. -/
def idClean : Str → Option Str := fun s => some s

/-- Visitor accepting every entry, for witnesses. -/
def cbOne : Str → Str → Nat → Int := fun _ _ _ => 1

/-- Open oracle that always succeeds, for witnesses. -/
def noOpenFail : Str → Option Nat := fun _ => none

/-- Read oracle that never fails, for witnesses. -/
def noReadFail : Str → Bool := fun _ => false

/-- Witness path for the traversal witnesses. -/
def wPath : Str := ['/', 't']

/-- Whether an event is the allocation of an entry record. -/
def isItemAlloc : Event → Bool
  | Event.itemAlloc _ => true
  | _ => false

/-- Whether an event is the release of an entry record. -/
def isItemFree : Event → Bool
  | Event.itemFree _ => true
  | _ => false

/-- Visitor rejecting every entry with an error, for the C4
counterexample. -/
def cbNeg : Str → Str → Nat → Int := fun _ _ _ => -1

/-- The path of the subdirectory b in the witness tree. -/
def wSubdirB : Str := ['/', 't', '/', 'b']

/-- Open oracle failing on every directory with errno 5, for the C5 root
witness. -/
def wOpenRootFail : Str → Option Nat := fun _ => some 5

/-- Open oracle failing with EACCES on the subdirectory b only, for the
C5 tolerated-failure witness. -/
def wOpenEacces : Str → Option Nat := fun s => if s = wSubdirB then some EACCES else none

/-- Open oracle failing with errno 5 (not EACCES) on the subdirectory b
only, for the C5 fatal-descendant-failure witness. -/
def wOpenBFail : Str → Option Nat := fun s => if s = wSubdirB then some 5 else none

/-- Visitor accepting only the root and failing on every other entry,
for the C2 counterexample run. -/
def cbRootOnly : Str → Str → Nat → Int := fun d _ _ => if d = wPath then 1 else -1

/-- A root entry that is a regular file, for the C3 leak run. -/
def wFile : FsNode := FsNode.node ['t'] 0x81a4 0x81a4 []

/-- Visitor pruning the subdirectory b and accepting everything else,
for the C7 witness. -/
def cbPrune : Str → Str → Nat → Int := fun d _ _ => if d = wSubdirB then 0 else 1

/-- A rewritten member name for the C10 witness. -/
def wMember : Str := ['p', 'k', 'g']

@[simp]
theorem obs_nil : obs [] = [] := rfl

@[simp]
theorem obs_cons (e : Event) (l : List Event) :
    obs (e :: l) = if isObs e then e :: obs l else obs l := by
  simp [obs, List.filter_cons]

@[simp]
theorem obs_append (l₁ l₂ : List Event) : obs (l₁ ++ l₂) = obs l₁ ++ obs l₂ := by
  simp [obs, List.filter_append]

/-- In a run in which no abort can happen (a negative visitor return is
downgraded by a present, non-fatal accumulator or cannot occur; every
directory open either succeeds or fails with the tolerated EACCES; no
per-entry read failure), the loop terminates cleanly with result 0 and
its observable trace is exactly the recursive specification of the
stacked frames. -/
theorem runLoop_noabort (C : Ctx)
    (Hcb : (C.errPresent = true ∧ C.fatal = false) ∨ ∀ d l m, 0 ≤ C.cb d l m)
    (Hopen : ∀ q, C.openFail q = none ∨ C.openFail q = some EACCES)
    (Hread : ∀ q, C.readFail q = false)
    (st : List Frame) (n : Nat) :
    (runLoop C st n).1 = 0 ∧ obs (runLoop C st n).2 = specFrames C st := by
  induction st, n using runLoop.induct C with
  | case1 x =>
    simp [runLoop, isObs, specFrames]
  | case2 i path rest n ih =>
    simp [runLoop, isObs, specFrames, specList, ih.1, ih.2]
  | case3 i fp nm lmd fmd cs es rest n hread ih =>
    exact absurd hread (by simp [Hread])
  | case4 i fp nm lmd fmd cs es rest n hread hdot ih =>
    simp [runLoop, hread, hdot, isObs, specFrames, specList, ih.1, ih.2]
  | case5 i fp nm lmd fmd cs es rest n hread hdot hres ih =>
    have hnlt : ¬(0 < eres C fp nm lmd fmd) := by omega
    simp [runLoop, hread, hdot, hres, hnlt, isObs, specFrames, specList, ih.1, ih.2]
  | case6 i fp nm lmd fmd cs es rest n hread hdot hres0 hneg hnf ih =>
    have hnlt : ¬(0 < eres C fp nm lmd fmd) := by omega
    simp [runLoop, hread, hdot, hres0, hneg, hnf, hnlt, isObs, specFrames, specList,
      ih.1, ih.2]
  | case7 i fp nm lmd fmd cs es rest n hread hdot hres0 hneg hf =>
    exfalso
    rcases Hcb with ⟨he, hf2⟩ | hge
    · exact hf (by simp [he, hf2])
    · have := hge (joinPath fp nm) (elog C (joinPath fp nm)) (emode C lmd fmd)
      simp [eres] at hneg
      omega
  | case8 i fp nm lmd fmd cs es rest n hread hdot hres0 hneg hdir hacc ih =>
    have hpos : 0 < eres C fp nm lmd fmd := by omega
    simp [runLoop, hread, hdot, hres0, hneg, hdir, hacc, isObs, specFrames, specList,
      hpos, ih.1, ih.2, warnEvts]
    by_cases he : C.errPresent = true <;> simp [he, isObs]
  | case9 i fp nm lmd fmd cs es rest n hread hdot hres0 hneg hdir eno hopen hne =>
    exfalso
    rcases Hopen (joinPath fp nm) with h | h
    · rw [hopen] at h; cases h
    · rw [hopen] at h
      exact hne (by injection h)
  | case10 i fp nm lmd fmd cs es rest n hread hdot hres0 hneg hdir hopen ih =>
    have hpos : 0 < eres C fp nm lmd fmd := by omega
    simp [runLoop, hread, hdot, hres0, hneg, hdir, hopen, isObs, specFrames, specList,
      hpos, ih.1, ih.2]
  | case11 i fp nm lmd fmd cs es rest n hread hdot hres0 hneg hdir ih =>
    have hpos : 0 < eres C fp nm lmd fmd := by omega
    simp [runLoop, hread, hdot, hres0, hneg, hdir, hpos, isObs, specFrames, specList,
      ih.1, ih.2]

@[simp]
theorem visitTriples_nil : visitTriples [] = [] := rfl

@[simp]
theorem visitTriples_cons (e : Event) (l : List Event) :
    visitTriples (e :: l) =
      match vproj e with
      | some t => t :: visitTriples l
      | none => visitTriples l := by
  simp [visitTriples, List.filterMap_cons]
  cases e <;> simp [vproj]

@[simp]
theorem visitTriples_append (l₁ l₂ : List Event) :
    visitTriples (l₁ ++ l₂) = visitTriples l₁ ++ visitTriples l₂ := by
  simp [visitTriples, List.filterMap_append]

/-- When the visitor accepts every entry and every directory open
succeeds, the observable specification lists exactly the plain pre-order
enumeration of the forest. -/
theorem specList_visitPaths (C : Ctx)
    (Hcb : ∀ d l m, 0 < C.cb d l m) (Hopen : ∀ q, C.openFail q = none)
    (parent : Str) (ns : List FsNode) :
    visitPaths (specList C parent ns) = preOrderList C.follow parent ns := by
  induction parent, ns using specList.induct C with
  | case1 parent =>
    simp [specList, preOrderList, visitPaths]
  | case2 parent nm lmd fmd cs ns ih =>
    have hpos : 0 < eres C parent nm lmd fmd := Hcb _ _ _
    by_cases hdot : nm = dot ∨ nm = dotdot
    · simp_all [specList, preOrderList, visitPaths, visitTriples]
    · by_cases hdir : emode C lmd fmd &&& S_IFMT = S_IFDIR
      · simp_all [specList, preOrderList, visitPaths, Hopen, vproj, emode, hpos]
      · simp_all [specList, preOrderList, visitPaths, Hopen, vproj, emode, hpos]

/-- Restricting a trace to its observable part preserves the visitor
invocations. -/
@[simp]
theorem visitTriples_obs (evts : List Event) :
    visitTriples (obs evts) = visitTriples evts := by
  induction evts with
  | nil => rfl
  | cons e l ih =>
    cases e <;> simp [isObs, vproj, ih]

/-- C1: For every successful b_find call on a fixed filesystem tree with
every directory open and every per-entry read succeeding and a visitor
that accepts every entry, the visitor is invoked exactly once per entry
reachable from the canonicalized starting path, excluding entries whose
leaf name is dot or dotdot, in pre-order depth-first order (a directory
subtree is fully traversed before the next sibling, children in iterator
order), and the root entry is the first invocation: the trace of visited
disk paths is the canonicalized root path followed by the pre-order
enumeration of its children when the root is a directory, and the root
alone otherwise. -/
theorem b_find_preorder_trace
    (cb : Str → Str → Nat → Int) (errPresent fatal : Bool)
    (clean : Str → Option Str) (path member_name : Str) (root : FsNode)
    (openFail : Str → Option Nat) (readFail : Str → Bool) (flags : Nat)
    (cp cm : Str)
    (h1 : clean path = some cp) (h2 : clean member_name = some cm)
    (hcb : ∀ d l m, 0 < cb d l m)
    (hopen : ∀ q, openFail q = none)
    (hread : ∀ q, readFail q = false) :
    (b_find_model cb errPresent fatal clean path member_name root false
        openFail readFail flags).1 = 0 ∧
    visitPaths (b_find_model cb errPresent fatal clean path member_name root false
        openFail readFail flags).2 =
      cp :: (if nodeMode (followBit flags) root &&& S_IFMT = S_IFDIR then
        preOrderList (followBit flags) cp root.children else []) ∧
    (visitPaths (b_find_model cb errPresent fatal clean path member_name root false
        openFail readFail flags).2).head? = some cp := by
  have hres := hcb cp cm (nodeMode (followBit flags) root)
  have H := runLoop_noabort
    ⟨cb, errPresent, fatal, followBit flags, openFail, readFail, cp, cm⟩
    (Or.inr fun d l m => le_of_lt (hcb d l m))
    (fun q => Or.inl (hopen q)) hread [⟨0, cp, root.children⟩] 1
  have HP := specList_visitPaths
    ⟨cb, errPresent, fatal, followBit flags, openFail, readFail, cp, cm⟩
    hcb hopen cp root.children
  by_cases hdir : nodeMode (followBit flags) root &&& S_IFMT = S_IFDIR
  · have hv : visitPaths (runLoop
        ⟨cb, errPresent, fatal, followBit flags, openFail, readFail, cp, cm⟩
        [⟨0, cp, root.children⟩] 1).2 =
        preOrderList (followBit flags) cp root.children := by
      rw [visitPaths, ← visitTriples_obs, H.2]
      simpa [specFrames, visitPaths] using HP
    simp [b_find_model, h1, h2, b_find_core, hdir, hopen,
      show cb cp cm (nodeMode (followBit flags) root) ≠ 0 from by omega,
      show ¬ cb cp cm (nodeMode (followBit flags) root) < 0 from by omega,
      visitPaths, vproj, isObs, H.1]
    rw [visitPaths] at hv
    simp [hv]
  · simp [b_find_model, h1, h2, b_find_core, hdir, hopen,
      show cb cp cm (nodeMode (followBit flags) root) ≠ 0 from by omega,
      show ¬ cb cp cm (nodeMode (followBit flags) root) < 0 from by omega,
      visitPaths, vproj, isObs]

/-- Witness for the C1 theorem: its hypotheses hold at the concrete
inputs and the conclusion follows by applying it. -/
theorem b_find_preorder_trace_witness :
    idClean wPath = some wPath ∧
    (∀ d l m, 0 < cbOne d l m) ∧
    ((b_find_model cbOne true false idClean wPath wPath wTree false
        noOpenFail noReadFail 0).1 = 0 ∧
      visitPaths (b_find_model cbOne true false idClean wPath wPath wTree false
          noOpenFail noReadFail 0).2 =
        wPath :: (if nodeMode (followBit 0) wTree &&& S_IFMT = S_IFDIR then
          preOrderList (followBit 0) wPath wTree.children else []) ∧
      (visitPaths (b_find_model cbOne true false idClean wPath wPath wTree false
          noOpenFail noReadFail 0).2).head? = some wPath) :=
  ⟨rfl, fun _ _ _ => Int.zero_lt_one,
    b_find_preorder_trace cbOne true false idClean wPath wPath wTree
      noOpenFail noReadFail 0 wPath wPath rfl rfl
      (fun _ _ _ => Int.zero_lt_one) (fun _ => rfl) (fun _ => rfl)⟩

/-- C6: Prefix substitution applied to (path, member name, current)
returns no rewrite when path equals member name as strings (so the
driver passes the on-disk path), otherwise returns member name
concatenated with the suffix of current starting at offset
length of path; on allocation failure it also returns no rewrite and
the driver falls back to the on-disk path. -/
theorem subst_member_name_spec (dupOk appendOk : Bool) (path member_name current : Str) :
    (path = member_name →
      subst_member_name dupOk appendOk path member_name current = none ∧
      (subst_member_name dupOk appendOk path member_name current).getD current = current) ∧
    (path ≠ member_name → dupOk = true → appendOk = true →
      subst_member_name dupOk appendOk path member_name current =
        some (member_name ++ current.drop path.length)) ∧
    (dupOk = false ∨ appendOk = false →
      subst_member_name dupOk appendOk path member_name current = none ∧
      (subst_member_name dupOk appendOk path member_name current).getD current = current) := by
  refine ⟨fun he => ?_, fun hne hd ha => ?_, fun hfail => ?_⟩
  · simp [subst_member_name, he]
  · simp [subst_member_name, hne, hd, ha]
  · rcases hfail with h | h <;> simp [subst_member_name, h]

/-- Witness for the C6 theorem at concrete strings. -/
theorem subst_member_name_spec_witness :
    (['/', 'a'] : Str) ≠ ['/', 'b'] ∧
    subst_member_name true true ['/', 'a'] ['/', 'b'] ['/', 'a', '/', 'x'] =
      some (['/', 'b'] ++ (['/', 'a', '/', 'x'] : Str).drop (['/', 'a'] : Str).length) :=
  ⟨by decide,
    (subst_member_name_spec true true ['/', 'a'] ['/', 'b'] ['/', 'a', '/', 'x']).2.1
      (by decide) rfl rfl⟩

/-- C9: For every stat performed during b_find, when the FOLLOW_SYMLINKS
bit is set in flags the metadata resolves through symbolic links (stat),
and when it is clear the metadata describes the link itself (lstat); all
other bits of flags have no effect on the behaviour of b_find, whose
result and trace depend on flags only through that bit. -/
theorem b_stat_flags_spec :
    (∀ (statfn lstatfn : Str → Option Nat) (p : Str) (flags : Nat),
      (flags &&& B_FIND_FOLLOW_SYMLINKS ≠ 0 →
        b_stat statfn lstatfn p flags = statfn p) ∧
      (flags &&& B_FIND_FOLLOW_SYMLINKS = 0 →
        b_stat statfn lstatfn p flags = lstatfn p)) ∧
    (∀ (cb : Str → Str → Nat → Int) (errPresent fatal : Bool)
      (clean : Str → Option Str) (path member_name : Str) (root : FsNode)
      (rootStatFail : Bool) (openFail : Str → Option Nat) (readFail : Str → Bool)
      (flags flags' : Nat),
      flags &&& B_FIND_FOLLOW_SYMLINKS = flags' &&& B_FIND_FOLLOW_SYMLINKS →
      b_find_model cb errPresent fatal clean path member_name root rootStatFail
          openFail readFail flags =
        b_find_model cb errPresent fatal clean path member_name root rootStatFail
          openFail readFail flags') := by
  constructor
  · intro statfn lstatfn p flags
    constructor
    · intro h
      simp [b_stat, followBit, h]
    · intro h
      simp [b_stat, followBit, h]
  · intro cb errPresent fatal clean path member_name root rootStatFail openFail readFail
      flags flags' h
    have : followBit flags = followBit flags' := by
      simp [followBit, h]
    simp [b_find_model, b_find_core, this]

/-- Witness for the C9 theorem: the follow bit selects the stat variant
and a flags value with extra reserved bits behaves like flags 0. -/
theorem b_stat_flags_spec_witness :
    ((1 : Nat) &&& B_FIND_FOLLOW_SYMLINKS ≠ 0 ∧
      b_stat (fun _ => some 7) (fun _ => some 8) wPath 1 = some 7) ∧
    ((4 : Nat) &&& B_FIND_FOLLOW_SYMLINKS = (0 : Nat) &&& B_FIND_FOLLOW_SYMLINKS ∧
      b_find_model cbOne true false idClean wPath wPath wTree false
          noOpenFail noReadFail 4 =
        b_find_model cbOne true false idClean wPath wPath wTree false
          noOpenFail noReadFail 0) :=
  ⟨⟨by decide, (b_stat_flags_spec.1 (fun _ => some 7) (fun _ => some 8) wPath 1).1 (by decide)⟩,
   ⟨by decide, b_stat_flags_spec.2 cbOne true false idClean wPath wPath wTree false
      noOpenFail noReadFail 4 0 (by decide)⟩⟩

@[simp]
theorem visitTriples_destroys (s : List Frame) :
    visitTriples (s.map (fun fr => Event.frameDestroy fr.id)) = [] := by
  induction s <;> simp_all [vproj]

@[simp]
theorem visitTriples_abortTail (s : List Frame) : visitTriples (abortTail s) = [] := by
  simp [abortTail, vproj]

@[simp]
theorem visitTriples_warnEvts (e : Bool) (eno : Nat) (p : Str) :
    visitTriples (warnEvts e eno p) = [] := by
  unfold warnEvts
  split <;> simp [vproj]

/-- Every visitor invocation issued from inside the loop carries as its
logical path the prefix substitution of its disk path (with the fallback
to the disk path when no rewrite applies). -/
theorem runLoop_logical (C : Ctx) (st : List Frame) (n : Nat) :
    ∀ t ∈ visitTriples (runLoop C st n).2,
      t.2.1 = logicalStr C.cleanPath C.cleanMember t.1 := by
  induction st, n using runLoop.induct C with
  | case1 x => simp [runLoop, vproj]
  | case2 i path rest n ih => simpa [runLoop, vproj] using ih
  | case3 i fp nm lmd fmd cs es rest n hread ih =>
    simpa [runLoop, hread, vproj] using ih
  | case4 i fp nm lmd fmd cs es rest n hread hdot ih =>
    simpa [runLoop, hread, hdot, vproj] using ih
  | case5 i fp nm lmd fmd cs es rest n hread hdot hres ih =>
    intro t ht
    simp [runLoop, hread, hdot, hres, vproj] at ht
    rcases ht with h | h
    · simp [h, elog]
    · exact ih t h
  | case6 i fp nm lmd fmd cs es rest n hread hdot hres0 hneg hnf ih =>
    intro t ht
    simp [runLoop, hread, hdot, hres0, hneg, hnf, vproj] at ht
    rcases ht with h | h
    · simp [h, elog]
    · exact ih t h
  | case7 i fp nm lmd fmd cs es rest n hread hdot hres0 hneg hnf =>
    intro t ht
    simp [runLoop, hread, hdot, hres0, hneg, hnf, vproj] at ht
    simp [ht, elog]
  | case8 i fp nm lmd fmd cs es rest n hread hdot hres0 hneg hdir hacc ih =>
    intro t ht
    simp [runLoop, hread, hdot, hres0, hneg, hdir, hacc, vproj] at ht
    rcases ht with h | h
    · simp [h, elog]
    · exact ih t h
  | case9 i fp nm lmd fmd cs es rest n hread hdot hres0 hneg hdir eno hopen hne =>
    intro t ht
    simp [runLoop, hread, hdot, hres0, hneg, hdir, hopen, hne, vproj] at ht
    simp [ht, elog]
  | case10 i fp nm lmd fmd cs es rest n hread hdot hres0 hneg hdir hopen ih =>
    intro t ht
    simp [runLoop, hread, hdot, hres0, hneg, hdir, hopen, vproj] at ht
    rcases ht with h | h
    · simp [h, elog]
    · exact ih t h
  | case11 i fp nm lmd fmd cs es rest n hread hdot hres0 hneg hdir ih =>
    intro t ht
    simp [runLoop, hread, hdot, hres0, hneg, hdir, vproj] at ht
    rcases ht with h | h
    · simp [h, elog]
    · exact ih t h

/-- C10: The visitor invocation for the root entry always receives the
canonicalized member name as its logical path and the canonicalized path
as its disk path, without applying prefix substitution; prefix
substitution is applied only to the later (descendant) invocations; in
particular when path and member name canonicalize to equal strings the
root logical path equals its disk path. -/
theorem b_find_root_invocation
    (cb : Str → Str → Nat → Int) (errPresent fatal : Bool)
    (clean : Str → Option Str) (path member_name : Str) (root : FsNode)
    (openFail : Str → Option Nat) (readFail : Str → Bool) (flags : Nat)
    (cp cm : Str)
    (h1 : clean path = some cp) (h2 : clean member_name = some cm) :
    (visitTriples (b_find_model cb errPresent fatal clean path member_name root false
        openFail readFail flags).2).head? =
      some (cp, cm, nodeMode (followBit flags) root) ∧
    (∀ t ∈ (visitTriples (b_find_model cb errPresent fatal clean path member_name root false
        openFail readFail flags).2).tail,
      t.2.1 = logicalStr cp cm t.1) ∧
    (cp = cm →
      (visitTriples (b_find_model cb errPresent fatal clean path member_name root false
          openFail readFail flags).2).head?.map (fun t => t.2.1) =
      (visitTriples (b_find_model cb errPresent fatal clean path member_name root false
          openFail readFail flags).2).head?.map (fun t => t.1)) := by
  simp only [b_find_model, h1, h2, b_find_core]
  by_cases hres0 : cb cp cm (nodeMode (followBit flags) root) = 0
  · simp [hres0, vproj]
    exact fun h => h.symm
  · by_cases hneg : cb cp cm (nodeMode (followBit flags) root) < 0
    · simp [hres0, hneg, vproj]
      exact fun h => h.symm
    · by_cases hdir : nodeMode (followBit flags) root &&& S_IFMT = S_IFDIR
      · rcases hopen : openFail cp with _ | eno
        · have HL := runLoop_logical
            ⟨cb, errPresent, fatal, followBit flags, openFail, readFail, cp, cm⟩
            [⟨0, cp, root.children⟩] 1
          simp [hres0, hneg, hdir, hopen, vproj]
          exact ⟨fun d l m ht => HL (d, l, m) ht, fun h => h.symm⟩
        · simp [hres0, hneg, hdir, hopen, vproj]
          exact fun h => h.symm
      · simp [hres0, hneg, hdir, vproj]
        exact fun h => h.symm

@[simp]
theorem itemAlloc_count_destroys (s : List Frame) (g : Event → Bool)
    (hg : ∀ i, g (Event.frameDestroy i) = false) :
    (s.map (fun fr => Event.frameDestroy fr.id)).countP g = 0 := by
  induction s <;> simp_all [List.countP_cons]

@[simp]
theorem count_abortTail (g : Event → Bool)
    (hg : ∀ i, g (Event.frameDestroy i) = false)
    (h1 : g Event.stackFree = false) (h2 : g Event.freeCleanMember = false)
    (h3 : g Event.freeCleanPath = false) (s : List Frame) :
    (abortTail s).countP g = 0 := by
  simp [abortTail, List.countP_cons, List.countP_append, hg, h1, h2, h3,
    itemAlloc_count_destroys s g hg]

@[simp]
theorem count_warnEvts (g : Event → Bool) (e : Bool) (eno : Nat) (p : Str)
    (hg : ∀ a b c, g (Event.warn a b c) = false) :
    (warnEvts e eno p).countP g = 0 := by
  unfold warnEvts
  split <;> simp [List.countP_cons, hg]

/-- Every entry record allocated by a b_dir_read inside the loop is
released exactly once, on every path through the loop, aborts included. -/
theorem runLoop_item_balance (C : Ctx) (st : List Frame) (n : Nat) :
    (runLoop C st n).2.countP isItemAlloc = (runLoop C st n).2.countP isItemFree := by
  induction st, n using runLoop.induct C with
  | case1 x => simp [runLoop, List.countP_cons, isItemAlloc, isItemFree]
  | case2 i path rest n ih => simp [runLoop, List.countP_cons, isItemAlloc, isItemFree, ih]
  | case3 i fp nm lmd fmd cs es rest n hread ih =>
    simp [runLoop, hread, List.countP_cons, isItemAlloc, isItemFree, ih]
  | case4 i fp nm lmd fmd cs es rest n hread hdot ih =>
    simp [runLoop, hread, hdot, List.countP_cons, isItemAlloc, isItemFree, ih]
  | case5 i fp nm lmd fmd cs es rest n hread hdot hres ih =>
    simp [runLoop, hread, hdot, hres, List.countP_cons, isItemAlloc, isItemFree, ih]
  | case6 i fp nm lmd fmd cs es rest n hread hdot hres0 hneg hnf ih =>
    simp [runLoop, hread, hdot, hres0, hneg, hnf, List.countP_cons,
      isItemAlloc, isItemFree, ih]
  | case7 i fp nm lmd fmd cs es rest n hread hdot hres0 hneg hnf =>
    simp [runLoop, hread, hdot, hres0, hneg, hnf, List.countP_cons,
      count_abortTail isItemAlloc (fun _ => rfl) rfl rfl rfl,
      count_abortTail isItemFree (fun _ => rfl) rfl rfl rfl,
      isItemAlloc, isItemFree]
  | case8 i fp nm lmd fmd cs es rest n hread hdot hres0 hneg hdir hacc ih =>
    simp [runLoop, hread, hdot, hres0, hneg, hdir, hacc, List.countP_cons,
      List.countP_append, isItemAlloc, isItemFree, ih,
      count_warnEvts isItemAlloc _ _ _ (fun _ _ _ => rfl),
      count_warnEvts isItemFree _ _ _ (fun _ _ _ => rfl)]
  | case9 i fp nm lmd fmd cs es rest n hread hdot hres0 hneg hdir eno hopen hne =>
    simp [runLoop, hread, hdot, hres0, hneg, hdir, hopen, hne, List.countP_cons,
      List.countP_append, isItemAlloc, isItemFree,
      count_abortTail isItemAlloc (fun _ => rfl) rfl rfl rfl,
      count_abortTail isItemFree (fun _ => rfl) rfl rfl rfl,
      count_warnEvts isItemAlloc _ _ _ (fun _ _ _ => rfl),
      count_warnEvts isItemFree _ _ _ (fun _ _ _ => rfl)]
  | case10 i fp nm lmd fmd cs es rest n hread hdot hres0 hneg hdir hopen ih =>
    simp [runLoop, hread, hdot, hres0, hneg, hdir, hopen, List.countP_cons,
      isItemAlloc, isItemFree, ih]
  | case11 i fp nm lmd fmd cs es rest n hread hdot hres0 hneg hdir ih =>
    simp [runLoop, hread, hdot, hres0, hneg, hdir, List.countP_cons,
      isItemAlloc, isItemFree, ih]

/-- When the accumulator is absent or fatal, a loop that terminates with
result 0 never saw a negative visitor return. -/
theorem runLoop_clean_nonneg (C : Ctx)
    (hferr : C.errPresent = false ∨ C.fatal = true) (st : List Frame) (n : Nat) :
    (runLoop C st n).1 = 0 →
    ∀ t ∈ visitTriples (runLoop C st n).2, 0 ≤ C.cb t.1 t.2.1 t.2.2 := by
  induction st, n using runLoop.induct C with
  | case1 x => simp [runLoop, vproj]
  | case2 i path rest n ih => simpa [runLoop, vproj] using ih
  | case3 i fp nm lmd fmd cs es rest n hread ih =>
    simpa [runLoop, hread, vproj] using ih
  | case4 i fp nm lmd fmd cs es rest n hread hdot ih =>
    simpa [runLoop, hread, hdot, vproj] using ih
  | case5 i fp nm lmd fmd cs es rest n hread hdot hres ih =>
    intro h0 t ht
    simp [runLoop, hread, hdot, hres, vproj] at h0 ht
    rcases ht with h | h
    · have : C.cb t.1 t.2.1 t.2.2 = eres C fp nm lmd fmd := by
        simp [h, eres]
      omega
    · exact ih h0 t h
  | case6 i fp nm lmd fmd cs es rest n hread hdot hres0 hneg hnf ih =>
    exfalso
    rcases hferr with h | h <;> simp [h] at hnf
  | case7 i fp nm lmd fmd cs es rest n hread hdot hres0 hneg hnf =>
    intro h0
    simp [runLoop, hread, hdot, hres0, hneg, hnf] at h0
  | case8 i fp nm lmd fmd cs es rest n hread hdot hres0 hneg hdir hacc ih =>
    intro h0 t ht
    simp [runLoop, hread, hdot, hres0, hneg, hdir, hacc, vproj] at h0 ht
    rcases ht with h | h
    · have : C.cb t.1 t.2.1 t.2.2 = eres C fp nm lmd fmd := by
        simp [h, eres]
      omega
    · exact ih h0 t h
  | case9 i fp nm lmd fmd cs es rest n hread hdot hres0 hneg hdir eno hopen hne =>
    intro h0
    simp [runLoop, hread, hdot, hres0, hneg, hdir, hopen, hne] at h0
  | case10 i fp nm lmd fmd cs es rest n hread hdot hres0 hneg hdir hopen ih =>
    intro h0 t ht
    simp [runLoop, hread, hdot, hres0, hneg, hdir, hopen, vproj] at h0 ht
    rcases ht with h | h
    · have : C.cb t.1 t.2.1 t.2.2 = eres C fp nm lmd fmd := by
        simp [h, eres]
      omega
    · exact ih h0 t h
  | case11 i fp nm lmd fmd cs es rest n hread hdot hres0 hneg hdir ih =>
    intro h0 t ht
    simp [runLoop, hread, hdot, hres0, hneg, hdir, vproj] at h0 ht
    rcases ht with h | h
    · have : C.cb t.1 t.2.1 t.2.2 = eres C fp nm lmd fmd := by
        simp [h, eres]
      omega
    · exact ih h0 t h

/-- A loop that terminates with result 0 never saw a directory open fail
with an errno other than the tolerated EACCES on an accepted directory
entry. -/
theorem runLoop_clean_open (C : Ctx) (st : List Frame) (n : Nat) :
    (runLoop C st n).1 = 0 →
    ∀ t ∈ visitTriples (runLoop C st n).2,
      0 < C.cb t.1 t.2.1 t.2.2 → t.2.2 &&& S_IFMT = S_IFDIR →
      C.openFail t.1 = none ∨ C.openFail t.1 = some EACCES := by
  induction st, n using runLoop.induct C with
  | case1 x => simp [runLoop, vproj]
  | case2 i path rest n ih => simpa [runLoop, vproj] using ih
  | case3 i fp nm lmd fmd cs es rest n hread ih =>
    simpa [runLoop, hread, vproj] using ih
  | case4 i fp nm lmd fmd cs es rest n hread hdot ih =>
    simpa [runLoop, hread, hdot, vproj] using ih
  | case5 i fp nm lmd fmd cs es rest n hread hdot hres ih =>
    intro h0 t ht hpos hdir
    simp [runLoop, hread, hdot, hres, vproj] at h0 ht
    rcases ht with h | h
    · exfalso
      have : C.cb t.1 t.2.1 t.2.2 = eres C fp nm lmd fmd := by
        simp [h, eres]
      omega
    · exact ih h0 t h hpos hdir
  | case6 i fp nm lmd fmd cs es rest n hread hdot hres0 hneg hnf ih =>
    intro h0 t ht hpos hdir
    simp [runLoop, hread, hdot, hres0, hneg, hnf, vproj] at h0 ht
    rcases ht with h | h
    · exfalso
      have : C.cb t.1 t.2.1 t.2.2 = eres C fp nm lmd fmd := by
        simp [h, eres]
      omega
    · exact ih h0 t h hpos hdir
  | case7 i fp nm lmd fmd cs es rest n hread hdot hres0 hneg hnf =>
    intro h0
    simp [runLoop, hread, hdot, hres0, hneg, hnf] at h0
  | case8 i fp nm lmd fmd cs es rest n hread hdot hres0 hneg hdir hacc ih =>
    intro h0 t ht hpos hdir2
    simp [runLoop, hread, hdot, hres0, hneg, hdir, hacc, vproj] at h0 ht
    rcases ht with h | h
    · right
      have : t.1 = joinPath fp nm := by simp [h]
      rw [this, hacc]
    · exact ih h0 t h hpos hdir2
  | case9 i fp nm lmd fmd cs es rest n hread hdot hres0 hneg hdir eno hopen hne =>
    intro h0
    simp [runLoop, hread, hdot, hres0, hneg, hdir, hopen, hne] at h0
  | case10 i fp nm lmd fmd cs es rest n hread hdot hres0 hneg hdir hopen ih =>
    intro h0 t ht hpos hdir2
    simp [runLoop, hread, hdot, hres0, hneg, hdir, hopen, vproj] at h0 ht
    rcases ht with h | h
    · left
      have : t.1 = joinPath fp nm := by simp [h]
      rw [this, hopen]
    · exact ih h0 t h hpos hdir2
  | case11 i fp nm lmd fmd cs es rest n hread hdot hres0 hneg hdir ih =>
    intro h0 t ht hpos hdir2
    simp [runLoop, hread, hdot, hres0, hneg, hdir, vproj] at h0 ht
    rcases ht with h | h
    · exfalso
      have : t.2.2 = emode C lmd fmd := by simp [h]
      rw [this] at hdir2
      exact hdir hdir2
    · exact ih h0 t h hpos hdir2

/-- Direct statement of the open-failure handling of the loop: whenever
an accepted directory entry is surfaced and its open fails with errno
eno, the warning carrying eno and the entry path is recorded when the
accumulator is present, and the loop returns -1 when eno is not the
tolerated EACCES.  The branch taken at such an entry is a function of
the surfaced triple, so this covers every open failure of the run. -/
theorem runLoop_openfail_warn (C : Ctx) (st : List Frame) (n : Nat) :
    ∀ t ∈ visitTriples (runLoop C st n).2,
      0 < C.cb t.1 t.2.1 t.2.2 → t.2.2 &&& S_IFMT = S_IFDIR →
      ∀ eno, C.openFail t.1 = some eno →
      (C.errPresent = true → Event.warn eno uodMsg t.1 ∈ (runLoop C st n).2) ∧
      (eno ≠ EACCES → (runLoop C st n).1 = -1) := by
  induction st, n using runLoop.induct C with
  | case1 x => simp [runLoop, vproj]
  | case2 i path rest n ih =>
    intro t ht hpos hdir eno hop
    simp only [runLoop] at ht ⊢
    simp [vproj] at ht
    have := ih t (by simpa [visitTriples] using ht) hpos hdir eno hop
    exact ⟨fun he => by simp [this.1 he], this.2⟩
  | case3 i fp nm lmd fmd cs es rest n hread ih =>
    intro t ht hpos hdir eno hop
    simp only [runLoop, hread, if_true] at ht ⊢
    simp [vproj] at ht
    have := ih t (by simpa [visitTriples] using ht) hpos hdir eno hop
    exact ⟨fun he => by simp [this.1 he], this.2⟩
  | case4 i fp nm lmd fmd cs es rest n hread hdot ih =>
    intro t ht hpos hdir eno hop
    simp only [runLoop, hread, hdot] at ht ⊢
    simp [vproj] at ht ⊢
    have := ih t (by simpa [visitTriples] using ht) hpos hdir eno hop
    exact ⟨fun he => by simp [this.1 he], this.2⟩
  | case5 i fp nm lmd fmd cs es rest n hread hdot hres ih =>
    intro t ht hpos hdir eno hop
    simp only [runLoop, hread, hdot, hres] at ht ⊢
    simp [vproj] at ht ⊢
    rcases ht with h | h
    · exfalso
      have : C.cb t.1 t.2.1 t.2.2 = eres C fp nm lmd fmd := by
        simp [h, eres]
      omega
    · have := ih t (by simpa [visitTriples] using h) hpos hdir eno hop
      exact ⟨fun he => this.1 he, this.2⟩
  | case6 i fp nm lmd fmd cs es rest n hread hdot hres0 hneg hnf ih =>
    intro t ht hpos hdir eno hop
    simp only [runLoop, hread, hdot, hres0, hneg, hnf] at ht ⊢
    simp [vproj] at ht ⊢
    rcases ht with h | h
    · exfalso
      have : C.cb t.1 t.2.1 t.2.2 = eres C fp nm lmd fmd := by
        simp [h, eres]
      omega
    · have := ih t (by simpa [visitTriples] using h) hpos hdir eno hop
      exact ⟨fun he => this.1 he, this.2⟩
  | case7 i fp nm lmd fmd cs es rest n hread hdot hres0 hneg hnf =>
    intro t ht hpos hdir eno hop
    simp [runLoop, hread, hdot, hres0, hneg, hnf, vproj] at ht
    exfalso
    have : C.cb t.1 t.2.1 t.2.2 = eres C fp nm lmd fmd := by
      simp [ht, eres]
    omega
  | case8 i fp nm lmd fmd cs es rest n hread hdot hres0 hneg hdir hacc ih =>
    intro t ht hpos hdir2 eno hop
    simp only [runLoop, hread, hdot, hres0, hneg, hdir, hacc] at ht ⊢
    simp [vproj] at ht ⊢
    rcases ht with h | h
    · have ht1 : t.1 = joinPath fp nm := by simp [h]
      have heno : eno = EACCES := by
        rw [ht1, hacc] at hop
        injection hop
        omega
      refine ⟨fun he => ?_, fun hne => absurd heno hne⟩
      subst heno
      rw [ht1]
      simp [warnEvts, he]
    · have := ih t (by simpa [visitTriples] using h) hpos hdir2 eno hop
      refine ⟨fun he => ?_, this.2⟩
      have hw := this.1 he
      simp [hw, warnEvts, he]
  | case9 i fp nm lmd fmd cs es rest n hread hdot hres0 hneg hdir eno0 hopen hne =>
    intro t ht hpos hdir2 eno hop
    simp only [runLoop, hread, hdot, hres0, hneg, hdir, hopen, hne] at ht ⊢
    simp [vproj] at ht
    have ht1 : t.1 = joinPath fp nm := by simp [ht]
    have heno : eno = eno0 := by
      rw [ht1, hopen] at hop
      injection hop
      omega
    subst heno
    refine ⟨fun he => ?_, fun _ => by simp⟩
    rw [ht1]
    simp [warnEvts, he]
  | case10 i fp nm lmd fmd cs es rest n hread hdot hres0 hneg hdir hopen ih =>
    intro t ht hpos hdir2 eno hop
    simp only [runLoop, hread, hdot, hres0, hneg, hdir, hopen] at ht ⊢
    simp [vproj] at ht ⊢
    rcases ht with h | h
    · exfalso
      have : t.1 = joinPath fp nm := by simp [h]
      rw [this, hopen] at hop
      cases hop
    · have := ih t (by simpa [visitTriples] using h) hpos hdir2 eno hop
      exact ⟨fun he => this.1 he, this.2⟩
  | case11 i fp nm lmd fmd cs es rest n hread hdot hres0 hneg hdir ih =>
    intro t ht hpos hdir2 eno hop
    simp only [runLoop, hread, hdot, hres0, hneg, hdir] at ht ⊢
    simp [vproj] at ht ⊢
    rcases ht with h | h
    · exfalso
      have : t.2.2 = emode C lmd fmd := by simp [h]
      rw [this] at hdir2
      exact hdir hdir2
    · have := ih t (by simpa [visitTriples] using h) hpos hdir2 eno hop
      exact ⟨fun he => this.1 he, this.2⟩

/-- C4 counterexample: with an error accumulator present and reporting
non-fatal, a negative visitor return on the root entry does not skip and
continue as the claim states; b_find aborts with -1 after the single
root invocation. -/
theorem root_negative_nonfatal_aborts :
    (∀ d l m, cbNeg d l m < 0) ∧
    (true = true ∧ false = false) ∧
    (b_find_model cbNeg true false idClean wPath wPath wTree false
        noOpenFail noReadFail 0).1 = -1 ∧
    visitPaths (b_find_model cbNeg true false idClean wPath wPath wTree false
        noOpenFail noReadFail 0).2 = [wPath] := by
  refine ⟨fun _ _ _ => by simp [cbNeg], ⟨rfl, rfl⟩, ?_, ?_⟩ <;>
    simp [b_find_model, b_find_core, idClean, cbNeg, visitPaths, vproj, isObs]

/-- C4 (amended): a negative visitor return on the root always aborts
b_find with -1 regardless of the accumulator; for the loop (descendant)
entries the accumulator protocol holds: present and non-fatal means the
entry is skipped and traversal continues to clean completion, fatal or
absent means a negative return aborts with -1 (contrapositively, a clean
run saw no negative return); and every entry record allocated is
released, on every path. -/
theorem b_find_visitor_error_protocol
    (cb : Str → Str → Nat → Int) (errPresent fatal : Bool)
    (clean : Str → Option Str) (path member_name : Str) (root : FsNode)
    (openFail : Str → Option Nat) (readFail : Str → Bool) (flags : Nat)
    (cp cm : Str)
    (h1 : clean path = some cp) (h2 : clean member_name = some cm) :
    (cb cp cm (nodeMode (followBit flags) root) < 0 →
      (b_find_model cb errPresent fatal clean path member_name root false
          openFail readFail flags).1 = -1 ∧
      visitPaths (b_find_model cb errPresent fatal clean path member_name root false
          openFail readFail flags).2 = [cp]) ∧
    (errPresent = true → fatal = false →
      (∀ q, openFail q = none) → (∀ q, readFail q = false) →
      0 ≤ cb cp cm (nodeMode (followBit flags) root) →
      (b_find_model cb errPresent fatal clean path member_name root false
          openFail readFail flags).1 = 0) ∧
    ((errPresent = false ∨ fatal = true) →
      (b_find_model cb errPresent fatal clean path member_name root false
          openFail readFail flags).1 = 0 →
      ∀ t ∈ visitTriples (b_find_model cb errPresent fatal clean path member_name root false
          openFail readFail flags).2, 0 ≤ cb t.1 t.2.1 t.2.2) ∧
    ((b_find_model cb errPresent fatal clean path member_name root false
        openFail readFail flags).2.countP isItemAlloc =
      (b_find_model cb errPresent fatal clean path member_name root false
        openFail readFail flags).2.countP isItemFree) := by
  simp only [b_find_model, h1, h2, b_find_core]
  refine ⟨fun hneg => ?_, fun he hf hopen hread h0 => ?_, fun hferr => ?_, ?_⟩
  · have hne : cb cp cm (nodeMode (followBit flags) root) ≠ 0 := by omega
    simp [hne, hneg, visitPaths, vproj]
  · by_cases hres0 : cb cp cm (nodeMode (followBit flags) root) = 0
    · simp [hres0]
    · have hpos : ¬ cb cp cm (nodeMode (followBit flags) root) < 0 := by omega
      by_cases hdir : nodeMode (followBit flags) root &&& S_IFMT = S_IFDIR
      · have H := runLoop_noabort
          ⟨cb, errPresent, fatal, followBit flags, openFail, readFail, cp, cm⟩
          (Or.inl ⟨he, hf⟩) (fun q => Or.inl (hopen q)) hread
          [⟨0, cp, root.children⟩] 1
        simp [hres0, hpos, hdir, hopen, H.1]
      · simp [hres0, hpos, hdir]
  · by_cases hres0 : cb cp cm (nodeMode (followBit flags) root) = 0
    · intro h0 t ht
      simp [hres0, vproj] at ht
      simp [ht, hres0]
    · by_cases hneg : cb cp cm (nodeMode (followBit flags) root) < 0
      · intro h0
        simp [hres0, hneg] at h0
      · by_cases hdir : nodeMode (followBit flags) root &&& S_IFMT = S_IFDIR
        · rcases hopen : openFail cp with _ | eno
          · intro h0 t ht
            simp only [hres0, hneg, hdir, hopen, if_false, if_true] at h0 ht
            simp [vproj] at h0 ht
            rcases ht with h | h
            · simp [h]; omega
            · exact runLoop_clean_nonneg
                ⟨cb, errPresent, fatal, followBit flags, openFail, readFail, cp, cm⟩
                hferr [⟨0, cp, root.children⟩] 1 h0 t h
          · intro h0
            simp [hres0, hneg, hdir, hopen] at h0
        · intro h0 t ht
          simp [hres0, hneg, hdir, vproj] at ht
          simp [ht]; omega
  · by_cases hres0 : cb cp cm (nodeMode (followBit flags) root) = 0
    · simp [hres0, List.countP_cons, isItemAlloc, isItemFree]
    · by_cases hneg : cb cp cm (nodeMode (followBit flags) root) < 0
      · simp [hres0, hneg, List.countP_cons, isItemAlloc, isItemFree]
      · by_cases hdir : nodeMode (followBit flags) root &&& S_IFMT = S_IFDIR
        · rcases hopen : openFail cp with _ | eno
          · simp [hres0, hneg, hdir, hopen, List.countP_cons, isItemAlloc, isItemFree,
              runLoop_item_balance
                ⟨cb, errPresent, fatal, followBit flags, openFail, readFail, cp, cm⟩
                [⟨0, cp, root.children⟩] 1]
          · simp [hres0, hneg, hdir, hopen, List.countP_cons, List.countP_append,
              isItemAlloc, isItemFree,
              count_warnEvts isItemAlloc _ _ _ (fun _ _ _ => rfl),
              count_warnEvts isItemFree _ _ _ (fun _ _ _ => rfl)]
        · simp [hres0, hneg, hdir, List.countP_cons, isItemAlloc, isItemFree]

/-- Witness for the C4 amended theorem: at a concrete call with a present
non-fatal accumulator and an all-accepting visitor the traversal
completes cleanly. -/
theorem b_find_visitor_error_protocol_witness :
    idClean wPath = some wPath ∧
    (∀ q, noOpenFail q = none) ∧
    0 ≤ cbOne wPath wPath (nodeMode (followBit 0) wTree) ∧
    (b_find_model cbOne true false idClean wPath wPath wTree false
        noOpenFail noReadFail 0).1 = 0 :=
  ⟨rfl, fun _ => rfl, by simp [cbOne],
    (b_find_visitor_error_protocol cbOne true false idClean wPath wPath wTree
        noOpenFail noReadFail 0 wPath wPath rfl rfl).2.1 rfl rfl
      (fun _ => rfl) (fun _ => rfl) (by simp [cbOne])⟩

/-- C5: For every failure to open a directory during b_find, a
WARN-severity error carrying the errno and the directory path is recorded
on the accumulator when one is present; for the root directory the
failure always aborts b_find with -1; for a descendant directory an
EACCES failure is tolerated (the entry is skipped, its warning recorded,
and traversal completes cleanly) while any other errno aborts b_find
with -1.  Conjunct 1 is the root case; conjunct 2 the tolerated EACCES
run; conjunct 3 states, for every surfaced accepted directory entry
whose open fails (root included), that the warning with that errno and
that path is in the trace when an accumulator is present and that the
result is -1 whenever the errno is not EACCES; conjunct 4 is the
contrapositive for clean runs. -/
theorem b_find_open_failure_protocol
    (cb : Str → Str → Nat → Int) (errPresent fatal : Bool)
    (clean : Str → Option Str) (path member_name : Str) (root : FsNode)
    (openFail : Str → Option Nat) (readFail : Str → Bool) (flags : Nat)
    (cp cm : Str)
    (h1 : clean path = some cp) (h2 : clean member_name = some cm) :
    (∀ eno, nodeMode (followBit flags) root &&& S_IFMT = S_IFDIR →
      0 < cb cp cm (nodeMode (followBit flags) root) →
      openFail cp = some eno →
      (b_find_model cb errPresent fatal clean path member_name root false
          openFail readFail flags).1 = -1 ∧
      (errPresent = true →
        Event.warn eno uodMsg cp ∈
          (b_find_model cb errPresent fatal clean path member_name root false
            openFail readFail flags).2)) ∧
    ((∀ d l m, 0 < cb d l m) → (∀ q, readFail q = false) →
      (∀ q, openFail q = none ∨ openFail q = some EACCES) → openFail cp = none →
      (b_find_model cb errPresent fatal clean path member_name root false
          openFail readFail flags).1 = 0 ∧
      obs (b_find_model cb errPresent fatal clean path member_name root false
          openFail readFail flags).2 =
        Event.visit cp cm (nodeMode (followBit flags) root) ::
          (if nodeMode (followBit flags) root &&& S_IFMT = S_IFDIR then
            specList ⟨cb, errPresent, fatal, followBit flags, openFail, readFail, cp, cm⟩
              cp root.children
          else [])) ∧
    (∀ t ∈ visitTriples (b_find_model cb errPresent fatal clean path member_name root false
        openFail readFail flags).2,
      0 < cb t.1 t.2.1 t.2.2 → t.2.2 &&& S_IFMT = S_IFDIR →
      ∀ eno, openFail t.1 = some eno →
      (errPresent = true →
        Event.warn eno uodMsg t.1 ∈
          (b_find_model cb errPresent fatal clean path member_name root false
            openFail readFail flags).2) ∧
      (eno ≠ EACCES →
        (b_find_model cb errPresent fatal clean path member_name root false
          openFail readFail flags).1 = -1)) ∧
    ((b_find_model cb errPresent fatal clean path member_name root false
        openFail readFail flags).1 = 0 →
      ∀ t ∈ visitTriples (b_find_model cb errPresent fatal clean path member_name root false
          openFail readFail flags).2,
        0 < cb t.1 t.2.1 t.2.2 → t.2.2 &&& S_IFMT = S_IFDIR →
        openFail t.1 = none ∨ openFail t.1 = some EACCES) := by
  simp only [b_find_model, h1, h2, b_find_core]
  refine ⟨fun eno hdir hpos hopen => ?_, fun hcb hread hopen hcp => ?_, ?_, fun h0 => ?_⟩
  · have hne : cb cp cm (nodeMode (followBit flags) root) ≠ 0 := by omega
    have hnneg : ¬ cb cp cm (nodeMode (followBit flags) root) < 0 := by omega
    simp [hne, hnneg, hdir, hopen, warnEvts]
  · have hpos := hcb cp cm (nodeMode (followBit flags) root)
    have hne : cb cp cm (nodeMode (followBit flags) root) ≠ 0 := by omega
    have hnneg : ¬ cb cp cm (nodeMode (followBit flags) root) < 0 := by omega
    by_cases hdir : nodeMode (followBit flags) root &&& S_IFMT = S_IFDIR
    · have H := runLoop_noabort
        ⟨cb, errPresent, fatal, followBit flags, openFail, readFail, cp, cm⟩
        (Or.inr fun d l m => le_of_lt (hcb d l m)) hopen hread
        [⟨0, cp, root.children⟩] 1
      simp [hne, hnneg, hdir, hcp, H.1, H.2, isObs, specFrames]
    · simp [hne, hnneg, hdir, isObs]
  · by_cases hres0 : cb cp cm (nodeMode (followBit flags) root) = 0
    · intro t ht hpos
      exfalso
      simp [hres0, vproj] at ht
      simp [ht, hres0] at hpos
    · by_cases hneg : cb cp cm (nodeMode (followBit flags) root) < 0
      · intro t ht hpos
        exfalso
        simp [hres0, hneg, vproj] at ht
        have : cb t.1 t.2.1 t.2.2 = cb cp cm (nodeMode (followBit flags) root) := by
          simp [ht]
        omega
      · by_cases hdir : nodeMode (followBit flags) root &&& S_IFMT = S_IFDIR
        · rcases hopen : openFail cp with _ | e0
          · intro t ht hpos hdir2 eno hop
            simp only [hres0, hneg, hdir, hopen, if_false, if_true] at ht ⊢
            simp [vproj] at ht
            rcases ht with h | h
            · exfalso
              have : t.1 = cp := by simp [h]
              rw [this, hopen] at hop
              cases hop
            · have HW := runLoop_openfail_warn
                ⟨cb, errPresent, fatal, followBit flags, openFail, readFail, cp, cm⟩
                [⟨0, cp, root.children⟩] 1 t (by simpa [visitTriples] using h)
                hpos hdir2 eno hop
              constructor
              · intro he
                have hw := HW.1 he
                simp [hw]
              · intro hne2
                have := HW.2 hne2
                simp [this]
          · intro t ht hpos hdir2 eno hop
            simp only [hres0, hneg, hdir, hopen, if_false, if_true] at ht ⊢
            simp [vproj] at ht
            have ht1 : t.1 = cp := by simp [ht]
            have heno : eno = e0 := by
              rw [ht1, hopen] at hop
              injection hop
              omega
            subst heno
            constructor
            · intro he
              rw [ht1]
              simp [warnEvts, he]
            · intro hne2
              simp
        · intro t ht hpos hdir2
          exfalso
          simp [hres0, hneg, hdir, vproj] at ht
          have : t.2.2 = nodeMode (followBit flags) root := by simp [ht]
          rw [this] at hdir2
          exact hdir hdir2
  · by_cases hres0 : cb cp cm (nodeMode (followBit flags) root) = 0
    · intro t ht
      simp [hres0, vproj] at ht
      intro hpos
      exfalso
      simp [ht, hres0] at hpos
    · by_cases hneg : cb cp cm (nodeMode (followBit flags) root) < 0
      · simp [hres0, hneg] at h0
      · by_cases hdir : nodeMode (followBit flags) root &&& S_IFMT = S_IFDIR
        · rcases hopen : openFail cp with _ | eno
          · intro t ht
            simp only [hres0, hneg, hdir, hopen, if_false, if_true] at h0 ht
            simp [vproj] at h0 ht
            rcases ht with h | h
            · intro hpos hdir2
              left
              have : t.1 = cp := by simp [h]
              rw [this, hopen]
            · exact runLoop_clean_open
                ⟨cb, errPresent, fatal, followBit flags, openFail, readFail, cp, cm⟩
                [⟨0, cp, root.children⟩] 1 h0 t h
          · simp [hres0, hneg, hdir, hopen] at h0
        · intro t ht
          simp [hres0, hneg, hdir, vproj] at ht
          intro hpos hdir2
          exfalso
          have : t.2.2 = nodeMode (followBit flags) root := by simp [ht]
          rw [this] at hdir2
          exact hdir hdir2

/-- Witness for the C5 theorem: a root open failure aborts with -1 and
records the warning; an EACCES failure on a descendant directory is
tolerated and the traversal still completes cleanly. -/
theorem b_find_open_failure_protocol_witness :
    (nodeMode (followBit 0) wTree &&& S_IFMT = S_IFDIR ∧
      0 < cbOne wPath wPath (nodeMode (followBit 0) wTree) ∧
      wOpenRootFail wPath = some 5 ∧
      (b_find_model cbOne true false idClean wPath wPath wTree false
          wOpenRootFail noReadFail 0).1 = -1 ∧
      Event.warn 5 uodMsg wPath ∈
        (b_find_model cbOne true false idClean wPath wPath wTree false
          wOpenRootFail noReadFail 0).2) ∧
    (wOpenEacces wPath = none ∧
      wOpenEacces wSubdirB = some EACCES ∧
      (b_find_model cbOne true false idClean wPath wPath wTree false
          wOpenEacces noReadFail 0).1 = 0) ∧
    (wOpenBFail wSubdirB = some 5 ∧
      (5 : Nat) ≠ EACCES ∧
      (b_find_model cbOne true false idClean wPath wPath wTree false
          wOpenBFail noReadFail 0).1 = -1 ∧
      Event.warn 5 uodMsg wSubdirB ∈
        (b_find_model cbOne true false idClean wPath wPath wTree false
          wOpenBFail noReadFail 0).2) := by
  have HA := (b_find_open_failure_protocol cbOne true false idClean wPath wPath wTree
      wOpenRootFail noReadFail 0 wPath wPath rfl rfl).1 5
      (by decide) (by simp [cbOne]) rfl
  have HB := (b_find_open_failure_protocol cbOne true false idClean wPath wPath wTree
      wOpenEacces noReadFail 0 wPath wPath rfl rfl).2.1
      (fun _ _ _ => Int.zero_lt_one) (fun _ => rfl)
      (fun q => by by_cases h : q = wSubdirB <;> simp [wOpenEacces, h])
      (by decide)
  have hmem : (wSubdirB, wSubdirB, 16877) ∈
      visitTriples (b_find_model cbOne true false idClean wPath wPath wTree false
        wOpenBFail noReadFail 0).2 := by
    simp [b_find_model, b_find_core, idClean, cbOne, wPath, wSubdirB, wTree, nodeMode,
      followBit, runLoop, joinPath, dot, dotdot, eres, emode, elog, logicalStr,
      subst_member_name, noReadFail, wOpenBFail, EACCES, S_IFMT, S_IFDIR,
      B_FIND_FOLLOW_SYMLINKS, FsNode.children, vproj,
      show (16877 &&& 61440) = 16384 from by decide,
      show (33188 &&& 61440) = 32768 from by decide]
  have HC := (b_find_open_failure_protocol cbOne true false idClean wPath wPath wTree
      wOpenBFail noReadFail 0 wPath wPath rfl rfl).2.2.1
      (wSubdirB, wSubdirB, 16877) hmem (by simp [cbOne]) (by decide) 5 (by decide)
  exact ⟨⟨by decide, by simp [cbOne], rfl, HA.1, HA.2 rfl⟩,
    ⟨by decide, by decide, HB.1⟩,
    ⟨by decide, by decide, HC.2 (by decide), HC.1 rfl⟩⟩

/-- C8: Every per-entry failure inside a directory read (readdir failure,
any allocation failure while building the entry record, or the stat of
the entry failing) makes b_dir_read return none, the same end-of-stream
result as genuine iterator exhaustion; and on that result the driver pops
and destroys the current frame and surfaces nothing to the visitor. -/
theorem b_dir_read_failure_protocol :
    (∀ (o : ReadOracles) (follow : Bool) (dp : Str),
      b_dir_read o follow dp [] = none) ∧
    (∀ (o : ReadOracles) (follow : Bool) (dp : Str) (e : FsNode) (es : List FsNode),
      o.readdirOk = false ∨ o.mallocOk = false ∨ o.mallocStOk = false ∨
        o.dupOk = false ∨ o.newOk = false ∨ (dp ≠ ['/'] ∧ o.appendSepOk = false) ∨
        o.appendNameOk = false ∨ o.statOk = false →
      b_dir_read o follow dp (e :: es) = b_dir_read o follow dp []) ∧
    (∀ (C : Ctx) (i : Nat) (fp nm : Str) (lmd fmd : Nat) (cs es : List FsNode)
      (rest : List Frame) (n : Nat),
      C.readFail (joinPath fp nm) = true →
      runLoop C (⟨i, fp, FsNode.node nm lmd fmd cs :: es⟩ :: rest) n =
        ((runLoop C rest n).1, Event.frameDestroy i :: (runLoop C rest n).2) ∧
      visitTriples (runLoop C (⟨i, fp, FsNode.node nm lmd fmd cs :: es⟩ :: rest) n).2 =
        visitTriples (runLoop C rest n).2) := by
  refine ⟨fun o follow dp => rfl, fun o follow dp e es h => ?_, fun C i fp nm lmd fmd cs es rest n h => ?_⟩
  · cases e
    rcases h with h | h | h | h | h | hpair | h | h
    · simp [b_dir_read, h]
    · simp [b_dir_read, h]
    · simp [b_dir_read, h]
    · simp [b_dir_read, h]
    · simp [b_dir_read, h]
    · simp [b_dir_read, hpair.1, hpair.2]
    · simp [b_dir_read, h]
    · simp [b_dir_read, h]
  · constructor
    · simp [runLoop, h]
    · simp [runLoop, h, vproj]

/-- Witness for the C8 theorem: a failing stat makes a read of a
nonempty iterator yield the exhaustion result, and the driver pops the
frame with nothing surfaced. -/
theorem b_dir_read_failure_protocol_witness :
    (({ allReadOk with statOk := false } : ReadOracles).statOk = false ∧
      b_dir_read { allReadOk with statOk := false } false wPath wTree.children =
        b_dir_read { allReadOk with statOk := false } false wPath []) ∧
    ((fun q => decide (q = ['/', 't', '/', 'a'])) (joinPath wPath ['a']) = true ∧
      runLoop ⟨cbOne, true, false, false, noOpenFail,
          fun q => decide (q = ['/', 't', '/', 'a']), wPath, wPath⟩
        [⟨0, wPath, wTree.children⟩] 1 =
        ((runLoop ⟨cbOne, true, false, false, noOpenFail,
            fun q => decide (q = ['/', 't', '/', 'a']), wPath, wPath⟩ [] 1).1,
          Event.frameDestroy 0 ::
            (runLoop ⟨cbOne, true, false, false, noOpenFail,
              fun q => decide (q = ['/', 't', '/', 'a']), wPath, wPath⟩ [] 1).2)) := by
  have H2 := b_dir_read_failure_protocol.2.1 { allReadOk with statOk := false } false wPath
    (FsNode.node ['a'] 0x81a4 0x81a4 []) [FsNode.node ['b'] 0x41ed 0x41ed [FsNode.node ['c'] 0x81a4 0x81a4 []]]
    (by simp)
  have H3 := (b_dir_read_failure_protocol.2.2 ⟨cbOne, true, false, false, noOpenFail,
      fun q => decide (q = ['/', 't', '/', 'a']), wPath, wPath⟩ 0 wPath ['a'] 0x81a4 0x81a4 []
      [FsNode.node ['b'] 0x41ed 0x41ed [FsNode.node ['c'] 0x81a4 0x81a4 []]] [] 1
      (by decide)).1
  exact ⟨⟨rfl, H2⟩, ⟨by decide, H3⟩⟩

/-- C2 (code bug): on the abort path taken from inside the loop the root
frame is destroyed twice: once by the explicit b_dir_destroy(dir) at
error_cleanup (b_find.c line 329) and once more by the stack destructor
inside b_stack_destroy (line 334), because the root frame is still an
element of the stack.  Concretely: a tree whose root is accepted and
whose first child entry makes the visitor return -1 with no accumulator
present aborts with -1 after pushing the root frame once and destroying
it twice. -/
theorem frame_double_destroy_on_abort :
    (b_find_model cbRootOnly false false idClean wPath wPath wTree false
        noOpenFail noReadFail 0).1 = -1 ∧
    (b_find_model cbRootOnly false false idClean wPath wPath wTree false
        noOpenFail noReadFail 0).2.countP (fun e => e == Event.framePush 0 wPath) = 1 ∧
    (b_find_model cbRootOnly false false idClean wPath wPath wTree false
        noOpenFail noReadFail 0).2.countP (fun e => e == Event.frameDestroy 0) = 2 := by
  simp [b_find_model, b_find_core, idClean, cbRootOnly, wPath, wTree, nodeMode, followBit,
    runLoop, joinPath, dot, dotdot, eres, emode, elog, logicalStr, subst_member_name,
    noReadFail, noOpenFail, S_IFMT, S_IFDIR, B_FIND_FOLLOW_SYMLINKS, FsNode.children,
    abortTail, List.countP_cons, List.countP_append,
    show (16877 &&& 61440) = 16384 from by decide,
    show (33188 &&& 61440) = 32768 from by decide]
  decide

/-- C3 (code bug): when the root stat shows a non-directory and the
visitor returned a positive value, b_find returns 0 through the bare
return at b_find.c line 229, skipping the cleanup block: the frame stack
is never destroyed and neither canonicalized string is released, unlike
the regular clean path through the cleanup label (lines 320-325). -/
theorem nondir_return_leaks :
    (b_find_model cbOne true false idClean wPath wPath wFile false
        noOpenFail noReadFail 0).1 = 0 ∧
    Event.stackNew ∈ (b_find_model cbOne true false idClean wPath wPath wFile false
        noOpenFail noReadFail 0).2 ∧
    Event.stackFree ∉ (b_find_model cbOne true false idClean wPath wPath wFile false
        noOpenFail noReadFail 0).2 ∧
    Event.freeCleanPath ∉ (b_find_model cbOne true false idClean wPath wPath wFile false
        noOpenFail noReadFail 0).2 ∧
    Event.freeCleanMember ∉ (b_find_model cbOne true false idClean wPath wPath wFile false
        noOpenFail noReadFail 0).2 ∧
    (b_find_model cbOne true false idClean wPath wPath
        (FsNode.node ['t'] 0x41ed 0x41ed []) false noOpenFail noReadFail 0).2.countP
      (fun e => e == Event.stackFree) = 1 := by
  refine ⟨?_, ?_, ?_, ?_, ?_, ?_⟩ <;>
    (simp [b_find_model, b_find_core, idClean, cbOne, wPath, wFile, nodeMode, followBit,
      runLoop, joinPath, noReadFail, noOpenFail, S_IFMT, S_IFDIR, B_FIND_FOLLOW_SYMLINKS,
      FsNode.children, List.countP_cons,
      show (33188 &&& 61440) = 32768 from by decide,
      show (16877 &&& 61440) = 16384 from by decide]
     try decide)

/-- The logical path handed to the visitor for an entry whose disk path
equals the canonicalized starting path is the canonicalized member name,
whether or not substitution applies. -/
theorem logicalStr_self (cp cm : Str) : logicalStr cp cm cp = cm := by
  by_cases h : cp = cm
  · simp [logicalStr, subst_member_name, h]
  · simp [logicalStr, subst_member_name, h]

/-- A proper extension is never a prefix. -/
theorem not_prefix_of_longer {l₁ l₂ : Str} (h : l₂.length < l₁.length) : ¬(l₁ <+: l₂) :=
  fun hp => absurd hp.length_le (by omega)

/-- Composing a separator-free leaf name onto a directory path that is
neither the pruned path nor below it yields a path that is not below the
pruned path either. -/
theorem joinPath_not_under (p fp nm : Str) (hp0 : p ≠ [])
    (hfp1 : fp ≠ p) (hfp2 : ¬(p ++ ['/'] <+: fp)) (hnm : ('/' : Char) ∉ nm) :
    ¬(p ++ ['/'] <+: joinPath fp nm) := by
  intro h
  unfold joinPath at h
  by_cases hroot : fp = ['/']
  · rw [if_pos hroot] at h
    subst hroot
    cases p with
    | nil => exact hp0 rfl
    | cons c p' =>
      rw [List.singleton_append] at h
      rcases List.cons_prefix_cons.mp (by simpa using h) with ⟨hc, htl⟩
      exact hnm (List.IsPrefix.mem (by simp) htl)
  · rw [if_neg hroot] at h
    have hsplit : fp ++ '/' :: nm = (fp ++ ['/']) ++ nm := by simp
    have h2 : fp ++ ['/'] <+: fp ++ '/' :: nm := by
      rw [hsplit]; exact List.prefix_append _ _
    rcases List.prefix_or_prefix_of_prefix h h2 with hc | hc
    · rcases Nat.lt_or_ge p.length fp.length with hl | hl
      · have hlen : (p ++ ['/']).length ≤ fp.length := by simp; omega
        exact hfp2 ((List.isPrefix_append_of_length hlen).mp hc)
      · have hle := hc.length_le
        simp only [List.length_append, List.length_singleton] at hle
        have heq : p.length = fp.length := by omega
        have hPP : p ++ ['/'] = fp ++ ['/'] := hc.eq_of_length (by simp [heq])
        exact hfp1 (by simpa using hPP.symm)
    · rcases Nat.lt_or_ge fp.length p.length with hl | hl
      · have hlen : (fp ++ ['/']).length ≤ p.length := by simp; omega
        have hfp_p : fp ++ ['/'] <+: p := (List.isPrefix_append_of_length hlen).mp hc
        obtain ⟨t, ht⟩ := hfp_p
        rw [← ht, hsplit] at h
        have h3 : ((fp ++ ['/']) ++ (t ++ ['/'])) <+: (fp ++ ['/']) ++ nm := by
          simpa [List.append_assoc] using h
        have h4 : t ++ ['/'] <+: nm := (List.prefix_append_right_inj _).mp h3
        exact hnm (List.IsPrefix.mem (by simp) h4)
      · have hle := hc.length_le
        simp only [List.length_append, List.length_singleton] at hle
        have heq : fp.length = p.length := by omega
        have hPP : fp ++ ['/'] = p ++ ['/'] := hc.eq_of_length (by simp [heq])
        exact hfp1 (by simpa using hPP)

/-- Joining a nonempty leaf name strictly lengthens the path. -/
theorem joinPath_length_lt (fp nm : Str) (hnm : nm ≠ []) :
    fp.length < (joinPath fp nm).length := by
  have : 0 < nm.length := List.length_pos.mpr hnm
  unfold joinPath
  split <;> simp_all

/-- Unfolding of forest well-formedness over one node. -/
theorem goodL_cons {nm : Str} {lmd fmd : Nat} {cs ns : List FsNode}
    (h : goodL (FsNode.node nm lmd fmd cs :: ns) = true) :
    (nm ≠ [] ∧ ('/' : Char) ∉ nm) ∧ goodL cs = true ∧ goodL ns = true := by
  simp [goodL] at h
  exact ⟨⟨h.1.1.1, h.1.1.2⟩, h.1.2, h.2⟩

/-- Every disk path surfaced by the loop is strictly longer than a bound
below all frame paths, provided the frames hold well-formed forests. -/
theorem runLoop_visit_length (C : Ctx) (L : Nat) (st : List Frame) (n : Nat) :
    (∀ fr ∈ st, L ≤ fr.path.length ∧ goodL fr.rest = true) →
    ∀ q ∈ visitPaths (runLoop C st n).2, L < q.length := by
  induction st, n using runLoop.induct C with
  | case1 x => simp [runLoop, visitPaths, vproj]
  | case2 i path rest n ih =>
    intro hfr
    have := ih (fun fr hm => hfr fr (by simp [hm]))
    simpa [runLoop, visitPaths, vproj] using this
  | case3 i fp nm lmd fmd cs es rest n hread ih =>
    intro hfr
    have := ih (fun fr hm => hfr fr (by simp [hm]))
    simpa [runLoop, hread, visitPaths, vproj] using this
  | case4 i fp nm lmd fmd cs es rest n hread hdot ih =>
    intro hfr
    obtain ⟨hL, hg⟩ := hfr ⟨i, fp, FsNode.node nm lmd fmd cs :: es⟩ (by simp)
    obtain ⟨-, hgcs, hges⟩ := goodL_cons hg
    have := ih (by
      intro fr hm
      rcases List.mem_cons.mp hm with hm | hm
      · subst hm; exact ⟨hL, hges⟩
      · exact hfr fr (by simp [hm]))
    simpa [runLoop, hread, hdot, visitPaths, vproj] using this
  | case5 i fp nm lmd fmd cs es rest n hread hdot hres ih =>
    intro hfr
    obtain ⟨hL, hg⟩ := hfr ⟨i, fp, FsNode.node nm lmd fmd cs :: es⟩ (by simp)
    obtain ⟨⟨hnm0, -⟩, hgcs, hges⟩ := goodL_cons hg
    have hjl : L < (joinPath fp nm).length :=
      lt_of_le_of_lt hL (joinPath_length_lt fp nm hnm0)
    have := ih (by
      intro fr hm
      rcases List.mem_cons.mp hm with hm | hm
      · subst hm; exact ⟨hL, hges⟩
      · exact hfr fr (by simp [hm]))
    intro q hq
    simp [runLoop, hread, hdot, hres, visitPaths, vproj] at hq
    rcases hq with hq | hq
    · subst hq; exact hjl
    · exact this q (by simp [visitPaths, hq])
  | case6 i fp nm lmd fmd cs es rest n hread hdot hres0 hneg hnf ih =>
    intro hfr
    obtain ⟨hL, hg⟩ := hfr ⟨i, fp, FsNode.node nm lmd fmd cs :: es⟩ (by simp)
    obtain ⟨⟨hnm0, -⟩, hgcs, hges⟩ := goodL_cons hg
    have hjl : L < (joinPath fp nm).length :=
      lt_of_le_of_lt hL (joinPath_length_lt fp nm hnm0)
    have := ih (by
      intro fr hm
      rcases List.mem_cons.mp hm with hm | hm
      · subst hm; exact ⟨hL, hges⟩
      · exact hfr fr (by simp [hm]))
    intro q hq
    simp [runLoop, hread, hdot, hres0, hneg, hnf, visitPaths, vproj] at hq
    rcases hq with hq | hq
    · subst hq; exact hjl
    · exact this q (by simp [visitPaths, hq])
  | case7 i fp nm lmd fmd cs es rest n hread hdot hres0 hneg hnf =>
    intro hfr
    obtain ⟨hL, hg⟩ := hfr ⟨i, fp, FsNode.node nm lmd fmd cs :: es⟩ (by simp)
    obtain ⟨⟨hnm0, -⟩, -, -⟩ := goodL_cons hg
    have hjl : L < (joinPath fp nm).length :=
      lt_of_le_of_lt hL (joinPath_length_lt fp nm hnm0)
    intro q hq
    simp [runLoop, hread, hdot, hres0, hneg, hnf, visitPaths, vproj] at hq
    subst hq; exact hjl
  | case8 i fp nm lmd fmd cs es rest n hread hdot hres0 hneg hdir hacc ih =>
    intro hfr
    obtain ⟨hL, hg⟩ := hfr ⟨i, fp, FsNode.node nm lmd fmd cs :: es⟩ (by simp)
    obtain ⟨⟨hnm0, -⟩, hgcs, hges⟩ := goodL_cons hg
    have hjl : L < (joinPath fp nm).length :=
      lt_of_le_of_lt hL (joinPath_length_lt fp nm hnm0)
    have := ih (by
      intro fr hm
      rcases List.mem_cons.mp hm with hm | hm
      · subst hm; exact ⟨hL, hges⟩
      · exact hfr fr (by simp [hm]))
    intro q hq
    simp [runLoop, hread, hdot, hres0, hneg, hdir, hacc, visitPaths, vproj] at hq
    rcases hq with hq | hq
    · subst hq; exact hjl
    · exact this q (by simp [visitPaths, hq])
  | case9 i fp nm lmd fmd cs es rest n hread hdot hres0 hneg hdir eno hopen hne =>
    intro hfr
    obtain ⟨hL, hg⟩ := hfr ⟨i, fp, FsNode.node nm lmd fmd cs :: es⟩ (by simp)
    obtain ⟨⟨hnm0, -⟩, -, -⟩ := goodL_cons hg
    have hjl : L < (joinPath fp nm).length :=
      lt_of_le_of_lt hL (joinPath_length_lt fp nm hnm0)
    intro q hq
    simp [runLoop, hread, hdot, hres0, hneg, hdir, hopen, hne, visitPaths, vproj] at hq
    subst hq; exact hjl
  | case10 i fp nm lmd fmd cs es rest n hread hdot hres0 hneg hdir hopen ih =>
    intro hfr
    obtain ⟨hL, hg⟩ := hfr ⟨i, fp, FsNode.node nm lmd fmd cs :: es⟩ (by simp)
    obtain ⟨⟨hnm0, -⟩, hgcs, hges⟩ := goodL_cons hg
    have hjl : L < (joinPath fp nm).length :=
      lt_of_le_of_lt hL (joinPath_length_lt fp nm hnm0)
    have := ih (by
      intro fr hm
      rcases List.mem_cons.mp hm with hm | hm
      · subst hm; exact ⟨le_of_lt hjl, hgcs⟩
      · rcases List.mem_cons.mp hm with hm | hm
        · subst hm; exact ⟨hL, hges⟩
        · exact hfr fr (by simp [hm]))
    intro q hq
    simp [runLoop, hread, hdot, hres0, hneg, hdir, hopen, visitPaths, vproj] at hq
    rcases hq with hq | hq
    · subst hq; exact hjl
    · exact this q (by simp [visitPaths, hq])
  | case11 i fp nm lmd fmd cs es rest n hread hdot hres0 hneg hdir ih =>
    intro hfr
    obtain ⟨hL, hg⟩ := hfr ⟨i, fp, FsNode.node nm lmd fmd cs :: es⟩ (by simp)
    obtain ⟨⟨hnm0, -⟩, hgcs, hges⟩ := goodL_cons hg
    have hjl : L < (joinPath fp nm).length :=
      lt_of_le_of_lt hL (joinPath_length_lt fp nm hnm0)
    have := ih (by
      intro fr hm
      rcases List.mem_cons.mp hm with hm | hm
      · subst hm; exact ⟨hL, hges⟩
      · exact hfr fr (by simp [hm]))
    intro q hq
    simp [runLoop, hread, hdot, hres0, hneg, hdir, visitPaths, vproj] at hq
    rcases hq with hq | hq
    · subst hq; exact hjl
    · exact this q (by simp [visitPaths, hq])

/-- Pruning invariant of the loop: when the visitor returns 0 on every
invocation at disk path p, and no frame on the stack is at p or below p,
then no disk path surfaced by the rest of the loop lies strictly below
p.  Holds for arbitrary oracles, abort paths included. -/
theorem runLoop_pruned (C : Ctx) (p : Str) (hp0 : p ≠ [])
    (hp : ∀ md, C.cb p (logicalStr C.cleanPath C.cleanMember p) md = 0)
    (st : List Frame) (n : Nat) :
    (∀ fr ∈ st, goodL fr.rest = true ∧ fr.path ≠ p ∧ ¬(p ++ ['/'] <+: fr.path)) →
    ∀ q ∈ visitPaths (runLoop C st n).2, ¬(p ++ ['/'] <+: q) := by
  induction st, n using runLoop.induct C with
  | case1 x => simp [runLoop, visitPaths, vproj]
  | case2 i path rest n ih =>
    intro hfr
    have := ih (fun fr hm => hfr fr (by simp [hm]))
    simpa [runLoop, visitPaths, vproj] using this
  | case3 i fp nm lmd fmd cs es rest n hread ih =>
    intro hfr
    have := ih (fun fr hm => hfr fr (by simp [hm]))
    simpa [runLoop, hread, visitPaths, vproj] using this
  | case4 i fp nm lmd fmd cs es rest n hread hdot ih =>
    intro hfr
    obtain ⟨hg, hne, hnb⟩ := hfr ⟨i, fp, FsNode.node nm lmd fmd cs :: es⟩ (by simp)
    obtain ⟨-, -, hges⟩ := goodL_cons hg
    have := ih (by
      intro fr hm
      rcases List.mem_cons.mp hm with hm | hm
      · subst hm; exact ⟨hges, hne, hnb⟩
      · exact hfr fr (by simp [hm]))
    simpa [runLoop, hread, hdot, visitPaths, vproj] using this
  | case5 i fp nm lmd fmd cs es rest n hread hdot hres ih =>
    intro hfr
    obtain ⟨hg, hne, hnb⟩ := hfr ⟨i, fp, FsNode.node nm lmd fmd cs :: es⟩ (by simp)
    obtain ⟨⟨-, hnosl⟩, hgcs, hges⟩ := goodL_cons hg
    have hkey := joinPath_not_under p fp nm hp0 hne hnb hnosl
    have := ih (by
      intro fr hm
      rcases List.mem_cons.mp hm with hm | hm
      · subst hm; exact ⟨hges, hne, hnb⟩
      · exact hfr fr (by simp [hm]))
    intro q hq
    simp [runLoop, hread, hdot, hres, visitPaths, vproj] at hq
    rcases hq with hq | hq
    · subst hq; exact hkey
    · exact this q (by simp [visitPaths, hq])
  | case6 i fp nm lmd fmd cs es rest n hread hdot hres0 hneg hnf ih =>
    intro hfr
    obtain ⟨hg, hne, hnb⟩ := hfr ⟨i, fp, FsNode.node nm lmd fmd cs :: es⟩ (by simp)
    obtain ⟨⟨-, hnosl⟩, hgcs, hges⟩ := goodL_cons hg
    have hkey := joinPath_not_under p fp nm hp0 hne hnb hnosl
    have := ih (by
      intro fr hm
      rcases List.mem_cons.mp hm with hm | hm
      · subst hm; exact ⟨hges, hne, hnb⟩
      · exact hfr fr (by simp [hm]))
    intro q hq
    simp [runLoop, hread, hdot, hres0, hneg, hnf, visitPaths, vproj] at hq
    rcases hq with hq | hq
    · subst hq; exact hkey
    · exact this q (by simp [visitPaths, hq])
  | case7 i fp nm lmd fmd cs es rest n hread hdot hres0 hneg hnf =>
    intro hfr
    obtain ⟨hg, hne, hnb⟩ := hfr ⟨i, fp, FsNode.node nm lmd fmd cs :: es⟩ (by simp)
    obtain ⟨⟨-, hnosl⟩, -, -⟩ := goodL_cons hg
    have hkey := joinPath_not_under p fp nm hp0 hne hnb hnosl
    intro q hq
    simp [runLoop, hread, hdot, hres0, hneg, hnf, visitPaths, vproj] at hq
    subst hq; exact hkey
  | case8 i fp nm lmd fmd cs es rest n hread hdot hres0 hneg hdir hacc ih =>
    intro hfr
    obtain ⟨hg, hne, hnb⟩ := hfr ⟨i, fp, FsNode.node nm lmd fmd cs :: es⟩ (by simp)
    obtain ⟨⟨-, hnosl⟩, hgcs, hges⟩ := goodL_cons hg
    have hkey := joinPath_not_under p fp nm hp0 hne hnb hnosl
    have := ih (by
      intro fr hm
      rcases List.mem_cons.mp hm with hm | hm
      · subst hm; exact ⟨hges, hne, hnb⟩
      · exact hfr fr (by simp [hm]))
    intro q hq
    simp [runLoop, hread, hdot, hres0, hneg, hdir, hacc, visitPaths, vproj] at hq
    rcases hq with hq | hq
    · subst hq; exact hkey
    · exact this q (by simp [visitPaths, hq])
  | case9 i fp nm lmd fmd cs es rest n hread hdot hres0 hneg hdir eno hopen hne2 =>
    intro hfr
    obtain ⟨hg, hne, hnb⟩ := hfr ⟨i, fp, FsNode.node nm lmd fmd cs :: es⟩ (by simp)
    obtain ⟨⟨-, hnosl⟩, -, -⟩ := goodL_cons hg
    have hkey := joinPath_not_under p fp nm hp0 hne hnb hnosl
    intro q hq
    simp [runLoop, hread, hdot, hres0, hneg, hdir, hopen, hne2, visitPaths, vproj] at hq
    subst hq; exact hkey
  | case10 i fp nm lmd fmd cs es rest n hread hdot hres0 hneg hdir hopen ih =>
    intro hfr
    obtain ⟨hg, hne, hnb⟩ := hfr ⟨i, fp, FsNode.node nm lmd fmd cs :: es⟩ (by simp)
    obtain ⟨⟨-, hnosl⟩, hgcs, hges⟩ := goodL_cons hg
    have hkey := joinPath_not_under p fp nm hp0 hne hnb hnosl
    have hjoin_ne : joinPath fp nm ≠ p := by
      intro he
      have h0 := hp (emode C lmd fmd)
      have : eres C fp nm lmd fmd = 0 := by
        simp [eres, elog, he, h0]
      omega
    have := ih (by
      intro fr hm
      rcases List.mem_cons.mp hm with hm | hm
      · subst hm; exact ⟨hgcs, hjoin_ne, hkey⟩
      · rcases List.mem_cons.mp hm with hm | hm
        · subst hm; exact ⟨hges, hne, hnb⟩
        · exact hfr fr (by simp [hm]))
    intro q hq
    simp [runLoop, hread, hdot, hres0, hneg, hdir, hopen, visitPaths, vproj] at hq
    rcases hq with hq | hq
    · subst hq; exact hkey
    · exact this q (by simp [visitPaths, hq])
  | case11 i fp nm lmd fmd cs es rest n hread hdot hres0 hneg hdir ih =>
    intro hfr
    obtain ⟨hg, hne, hnb⟩ := hfr ⟨i, fp, FsNode.node nm lmd fmd cs :: es⟩ (by simp)
    obtain ⟨⟨-, hnosl⟩, hgcs, hges⟩ := goodL_cons hg
    have hkey := joinPath_not_under p fp nm hp0 hne hnb hnosl
    have := ih (by
      intro fr hm
      rcases List.mem_cons.mp hm with hm | hm
      · subst hm; exact ⟨hges, hne, hnb⟩
      · exact hfr fr (by simp [hm]))
    intro q hq
    simp [runLoop, hread, hdot, hres0, hneg, hdir, visitPaths, vproj] at hq
    rcases hq with hq | hq
    · subst hq; exact hkey
    · exact this q (by simp [visitPaths, hq])

/-- C7: For every entry on which the visitor returns 0 (stated for a
visitor that is a function of the invocation arguments and returns 0 at
disk path p), no descendant of that entry is ever surfaced to the
visitor during the remainder of the traversal: no surfaced disk path
lies strictly below p.  The filesystem is assumed well formed (readdir
leaf names nonempty and separator-free) and p must itself be a surfaced
entry.  No assumption is made on the other visitor values, the
accumulator, or the open and read oracles, so the property also covers
aborted walks; directory type is not needed because the property is
proved for every pruned entry. -/
theorem b_find_prune
    (cb : Str → Str → Nat → Int) (errPresent fatal : Bool)
    (clean : Str → Option Str) (path member_name : Str) (root : FsNode)
    (openFail : Str → Option Nat) (readFail : Str → Bool) (flags : Nat)
    (cp cm : Str)
    (h1 : clean path = some cp) (h2 : clean member_name = some cm)
    (hgood : goodL root.children = true) (p : Str)
    (hp : ∀ md, cb p (logicalStr cp cm p) md = 0)
    (hmem : p ∈ visitPaths (b_find_model cb errPresent fatal clean path member_name root false
        openFail readFail flags).2) :
    ∀ q ∈ visitPaths (b_find_model cb errPresent fatal clean path member_name root false
        openFail readFail flags).2, ¬(p ++ ['/'] <+: q) := by
  simp only [b_find_model, h1, h2, b_find_core] at hmem ⊢
  by_cases hpcp : p = cp
  · subst hpcp
    have hres0 : cb p cm (nodeMode (followBit flags) root) = 0 := by
      have := hp (nodeMode (followBit flags) root)
      rwa [logicalStr_self] at this
    simp only [hres0, if_true, if_pos rfl] at hmem ⊢
    intro q hq
    simp [visitPaths, vproj] at hq
    subst hq
    exact not_prefix_of_longer (by simp)
  · by_cases hres0 : cb cp cm (nodeMode (followBit flags) root) = 0
    · exfalso
      simp [hres0, visitPaths, vproj] at hmem
      exact hpcp hmem
    · by_cases hneg : cb cp cm (nodeMode (followBit flags) root) < 0
      · exfalso
        simp [hres0, hneg, visitPaths, vproj] at hmem
        exact hpcp hmem
      · by_cases hdir : nodeMode (followBit flags) root &&& S_IFMT = S_IFDIR
        · rcases hopen : openFail cp with _ | eno
          · simp only [hres0, hneg, hdir, hopen, if_false, if_true] at hmem ⊢
            simp [visitPaths, vproj] at hmem ⊢
            rcases hmem with hmem | hmem
            · exact absurd hmem hpcp
            · have hlen := runLoop_visit_length
                ⟨cb, errPresent, fatal, followBit flags, openFail, readFail, cp, cm⟩
                cp.length [⟨0, cp, root.children⟩] 1
                (by
                  intro fr hfr
                  rcases List.mem_singleton.mp hfr with rfl
                  exact ⟨le_refl _, hgood⟩)
                p (by simp [visitPaths, hmem])
              have hp0 : p ≠ [] := by
                intro he
                rw [he] at hlen
                simp at hlen
              have hne : cp ≠ p := by
                intro he
                rw [he] at hlen
                omega
              have hnb : ¬(p ++ ['/'] <+: cp) :=
                not_prefix_of_longer (by simp; omega)
              have HB := runLoop_pruned
                ⟨cb, errPresent, fatal, followBit flags, openFail, readFail, cp, cm⟩
                p hp0 hp [⟨0, cp, root.children⟩] 1
                (by
                  intro fr hfr
                  rcases List.mem_singleton.mp hfr with rfl
                  exact ⟨hgood, hne, hnb⟩)
              refine ⟨?_, ?_⟩
              · exact hnb
              · intro d l m hdlm
                exact HB d (by simp [visitPaths]; exact ⟨l, m, hdlm⟩)
          · exfalso
            simp [hres0, hneg, hdir, hopen, visitPaths, vproj] at hmem
            exact hpcp hmem
        · exfalso
          simp [hres0, hneg, hdir, visitPaths, vproj] at hmem
          exact hpcp hmem

/-- Witness for the C7 theorem: pruning the subdirectory b of the witness
tree keeps every surfaced path outside its subtree. -/
theorem b_find_prune_witness :
    goodL wTree.children = true ∧
    (∀ md, cbPrune wSubdirB (logicalStr wPath wPath wSubdirB) md = 0) ∧
    wSubdirB ∈ visitPaths (b_find_model cbPrune true false idClean wPath wPath wTree false
        noOpenFail noReadFail 0).2 ∧
    (∀ q ∈ visitPaths (b_find_model cbPrune true false idClean wPath wPath wTree false
        noOpenFail noReadFail 0).2, ¬(wSubdirB ++ ['/'] <+: q)) := by
  have hgood : goodL wTree.children = true := by
    simp [goodL, wTree, FsNode.children]
  have hp : ∀ md, cbPrune wSubdirB (logicalStr wPath wPath wSubdirB) md = 0 := by
    intro md
    simp [cbPrune]
  have hmem : wSubdirB ∈ visitPaths (b_find_model cbPrune true false idClean wPath wPath
      wTree false noOpenFail noReadFail 0).2 := by
    simp [b_find_model, b_find_core, idClean, cbPrune, wPath, wSubdirB, wTree, nodeMode,
      followBit, runLoop, joinPath, dot, dotdot, eres, emode, elog, logicalStr,
      subst_member_name, noReadFail, noOpenFail, S_IFMT, S_IFDIR, B_FIND_FOLLOW_SYMLINKS,
      FsNode.children, visitPaths, vproj,
      show (16877 &&& 61440) = 16384 from by decide,
      show (33188 &&& 61440) = 32768 from by decide]
  exact ⟨hgood, hp, hmem,
    b_find_prune cbPrune true false idClean wPath wPath wTree noOpenFail noReadFail 0
      wPath wPath rfl rfl hgood wSubdirB hp hmem⟩

/-- Witness for the C10 theorem at a member name differing from the
starting path. -/
theorem b_find_root_invocation_witness :
    idClean wPath = some wPath ∧
    idClean wMember = some wMember ∧
    ((visitTriples (b_find_model cbOne true false idClean wPath wMember wTree false
        noOpenFail noReadFail 0).2).head? =
      some (wPath, wMember, nodeMode (followBit 0) wTree) ∧
    (∀ t ∈ (visitTriples (b_find_model cbOne true false idClean wPath wMember wTree false
        noOpenFail noReadFail 0).2).tail,
      t.2.1 = logicalStr wPath wMember t.1) ∧
    (wPath = wMember →
      (visitTriples (b_find_model cbOne true false idClean wPath wMember wTree false
          noOpenFail noReadFail 0).2).head?.map (fun t => t.2.1) =
      (visitTriples (b_find_model cbOne true false idClean wPath wMember wTree false
          noOpenFail noReadFail 0).2).head?.map (fun t => t.1))) :=
  ⟨rfl, rfl,
    b_find_root_invocation cbOne true false idClean wPath wMember wTree
      noOpenFail noReadFail 0 wPath wMember rfl rfl⟩

end ATB
